import Mathlib

/-!
Verification development for the `beancountr` ledger-parser core.

The Rust sources (`src/beancountr/src/core/*.rs`, `src/beancountr/src/parser.rs`)
are shallowly embedded below:

* `rust_decimal::Decimal` is modelled as a signed 96-bit mantissa with a
  scale of at most 28; its arithmetic rounds on precision loss and panics on
  overflow, as the crate's does.
* `chrono::NaiveDate` is modelled as a year/month/day triple together with the
  calendar-validity check performed by `NaiveDate::from_ymd_opt`.
* Fallible Rust code returning `Result` is modelled with `Except`; a Rust
  `panic!` is reified in the `PanicOr` type.
* The chumsky combinator pipeline (a backtracking PEG) is modelled by
  parsers of type `List Char → Option (α × List Char)` (respectively over
  token lists), with explicit fuel for the `repeated` combinators; every
  repeated element below consumes at least one input item on success, and the
  fuel supplied always exceeds the input length, so the fuelled functions
  agree with the unbounded combinator semantics.
* Unicode character classes (`char::is_uppercase`, `is_alphabetic`, …) are
  modelled by their ASCII restrictions; every concrete input used in the
  theorems is ASCII.
-/

namespace Beancountr

/-! ## `core/types.rs` -/

/-- `BookingMethod` from `core/types.rs`. -/
inductive BookingMethod
  | Strict
  | StrictWithSize
  | NoneMethod
  | Average
  | FirstInFirstout
  | LastInFirstOut
  | HighestInFirstOut
  deriving DecidableEq, Repr

/-- A computation that either produces a value or aborts the program with a
`panic!` message. -/
inductive PanicOr (α : Type)
  | ok (a : α)
  | panic (msg : String)
  deriving DecidableEq, Repr

/-- `impl From<String> for BookingMethod` from `core/types.rs`: matches the
seven uppercase forms and otherwise executes
`panic!("Invalid booking method: {}", s)`. -/
def bookingMethodFromString (s : String) : PanicOr BookingMethod :=
  match s with
  | "STRICT" => .ok .Strict
  | "STRICT_WITH_SIZE" => .ok .StrictWithSize
  | "NONE" => .ok .NoneMethod
  | "AVERAGE" => .ok .Average
  | "FIFO" => .ok .FirstInFirstout
  | "LIFO" => .ok .LastInFirstOut
  | "HIFO" => .ok .HighestInFirstOut
  | _ => .panic ("Invalid booking method: " ++ s)

/-- `Commodity` from `core/types.rs`: a shared immutable string. -/
structure Commodity where
  val : String
  deriving DecidableEq, Repr

/-- `Account` from `core/types.rs`: a shared immutable string. -/
structure Account where
  val : String
  deriving DecidableEq, Repr

/-- `impl From<Vec<String>> for Account`: joins the parts with `":"`. -/
def Account.fromParts (v : List String) : Account :=
  ⟨String.intercalate ":" v⟩

/-- `BeanError` from `core/error.rs`.  The payload of `DecimalError`
(`rust_decimal::Error`) is modelled as its message string. -/
inductive BeanError
  | DecimalError (msg : String)
  | CommodityMismatch (lhs rhs : Commodity)
  deriving DecidableEq, Repr

/-- `core/error.rs`: `pub type Result<T> = std::result::Result<T, BeanError>`. -/
abbrev BeanResult (α : Type) := Except BeanError α

instance {ε α : Type} [DecidableEq ε] [DecidableEq α] :
    DecidableEq (Except ε α) := fun a b =>
  match a, b with
  | .ok a, .ok b => decidable_of_iff (a = b) (by simp)
  | .ok _, .error _ => .isFalse (by simp)
  | .error _, .ok _ => .isFalse (by simp)
  | .error e, .error f => decidable_of_iff (e = f) (by simp)

/-- `impl FromStr for Commodity` from `core/types.rs`: wraps the string with
no validation whatsoever (`Ok(Self(Rc::from(s)))`). -/
def Commodity.from_str (s : String) : BeanResult Commodity := .ok ⟨s⟩

/-! ## The `rust_decimal::Decimal` number type

`rust_decimal` (an external dependency of the crate) represents a number as
a sign, a 96-bit unsigned mantissa and a scale between 0 and 28; the value
is `± mantissa / 10 ^ scale`.  Arithmetic keeps as much precision as it
can: operands are rescaled to a common scale when the mantissa still fits
in 96 bits, excess precision is dropped with rounding, and a result whose
integer part does not fit panics.  The model below reproduces that
behaviour; the exact panic message strings of the crate are not load-bearing
for any claim (`PanicOr.isPanic` is what the theorems inspect). -/

/-- The largest mantissa magnitude representable in 96 bits. -/
def maxMantissaNat : Nat := 2 ^ 96 - 1

/-- `rust_decimal::Decimal`: signed mantissa (sign and 96-bit magnitude
combined into an `Int`) together with the scale.  A value produced by the
program always satisfies `num.natAbs ≤ maxMantissaNat ∧ scale ≤ 28`. -/
structure Decimal where
  num : Int
  scale : Nat
  deriving DecidableEq, Repr

/-- The rational value of a decimal. -/
def Decimal.toRat (d : Decimal) : ℚ := (d.num : ℚ) / (10 : ℚ) ^ d.scale

/-- `Decimal::MAX`. -/
def Decimal.MAX : Decimal := ⟨2 ^ 96 - 1, 0⟩

/-- `Decimal::from(n)` for unsigned integers (used by the parser for the
`lineno` metadata): mantissa `n`, scale 0. -/
def Decimal.ofNat (n : Nat) : Decimal := ⟨(n : Int), 0⟩

instance : NatCast Decimal := ⟨Decimal.ofNat⟩

instance (n : Nat) : OfNat Decimal n := ⟨Decimal.ofNat n⟩

/-- `Neg for Decimal` just flips the sign flag: always exact and total. -/
def Decimal.neg (d : Decimal) : Decimal := ⟨-d.num, d.scale⟩

/-- One decimal digit dropped from the mantissa, rounding half away from
zero on the magnitude (the rounding used by `rust_decimal`'s internal
rescaling loops, where the sign is carried separately). -/
def roundDiv10 (n : Int) : Int :=
  let mag := n.natAbs
  let q := mag / 10
  let m := if mag % 10 ≥ 5 then q + 1 else q
  if n < 0 then -(m : Int) else (m : Int)

/-- Dropping `k` decimal digits by truncation (no rounding). -/
def truncDiv10pow (n : Int) (k : Nat) : Int :=
  let mag := n.natAbs / 10 ^ k
  if n < 0 then -(mag : Int) else (mag : Int)

/-- Dropping `k` decimal digits as `rust_decimal`'s rescaling loop does:
the loop divides by 10 one digit at a time remembering only the last
remainder, so the first `k - 1` digits are truncated and the final digit is
rounded half away from zero. -/
def rescaleDown (n : Int) : Nat → Int
  | 0 => n
  | k + 1 => roundDiv10 (truncDiv10pow n k)

/-- The largest exponent `k ≤ bound` such that `n · 10 ^ k` still fits in a
96-bit magnitude (the "scale the smaller-scale operand up while it fits"
phase of `rust_decimal`'s unaligned addition). -/
def maxUpscale (n : Int) : Nat → Nat
  | 0 => 0
  | k + 1 =>
    if n.natAbs * 10 ^ (k + 1) ≤ maxMantissaNat then k + 1 else maxUpscale n k

/-- `Add for Decimal` (`rust_decimal`): the operands are brought to a common
scale — the smaller-scale mantissa is multiplied by 10 while it fits in 96
bits, and any remaining scale difference is resolved by scaling the other
operand *down* with rounding (losing precision).  If the mantissa sum
overflows 96 bits, one further rounded digit is dropped when the scale
allows it; otherwise the operation panics (`Add` unwraps the checked
result). -/
def Decimal.add (d1 d2 : Decimal) : PanicOr Decimal :=
  let lo := if d1.scale ≤ d2.scale then d1 else d2
  let hi := if d1.scale ≤ d2.scale then d2 else d1
  let diff := hi.scale - lo.scale
  let k := maxUpscale lo.num diff
  let loNum := lo.num * 10 ^ k
  let rem := diff - k
  let hiNum := rescaleDown hi.num rem
  let scale := hi.scale - rem
  let sum := loNum + hiNum
  if sum.natAbs ≤ maxMantissaNat then .ok ⟨sum, scale⟩
  else if 0 < scale then
    let sum' := roundDiv10 sum
    if sum'.natAbs ≤ maxMantissaNat then .ok ⟨sum', scale - 1⟩
    else .panic "Addition overflowed"
  else .panic "Addition overflowed"

/-- `Sub for Decimal` (`rust_decimal`): addition of the negated operand. -/
def Decimal.sub (d1 d2 : Decimal) : PanicOr Decimal :=
  match Decimal.add d1 (Decimal.neg d2) with
  | .ok d => .ok d
  | .panic _ => .panic "Subtraction underflowed"

/-- Reduce an out-of-range product mantissa one rounded digit at a time
while the scale allows; panic when the integer part cannot fit. -/
def mulFit : Int → Nat → PanicOr Decimal
  | n, 0 =>
    if n.natAbs ≤ maxMantissaNat then .ok ⟨n, 0⟩
    else .panic "Multiplication overflowed"
  | n, s + 1 =>
    if n.natAbs ≤ maxMantissaNat then .ok ⟨n, s + 1⟩
    else mulFit (roundDiv10 n) s

/-- `Mul for Decimal` (`rust_decimal`): mantissas are multiplied and scales
added; a scale beyond 28 is brought back to 28 with rounding, and an
oversized mantissa is reduced one rounded digit at a time while the scale
allows, panicking otherwise.  No claim depends on multiplication. -/
def Decimal.mul (d1 d2 : Decimal) : PanicOr Decimal :=
  let n := d1.num * d2.num
  let s := d1.scale + d2.scale
  if s > 28 then mulFit (rescaleDown n (s - 28)) 28 else mulFit n s

/-- Division of magnitudes rounding half away from zero. -/
def divRound (num den : Nat) : Nat :=
  if num % den * 2 ≥ den then num / den + 1 else num / den

/-- `Div for Decimal` (`rust_decimal`'s long division): panics on a zero
divisor; otherwise the quotient is produced at the smallest scale at which
the division is exact (when that mantissa fits in 96 bits), else at the
largest scale (at most 28) whose rounded mantissa fits; a quotient whose
integer part cannot fit panics.  No claim depends on division. -/
def Decimal.div (d1 d2 : Decimal) : PanicOr Decimal :=
  if d2.num = 0 then .panic "Division by zero"
  else
    let n := d1.num.natAbs * 10 ^ d2.scale
    let m := d2.num.natAbs * 10 ^ d1.scale
    let sgn : Int := if (d1.num < 0) = (d2.num < 0) then 1 else -1
    match (List.range 29).find?
        (fun s => n * 10 ^ s % m == 0 && n * 10 ^ s / m ≤ maxMantissaNat) with
    | some s => .ok ⟨sgn * (n * 10 ^ s / m : Nat), s⟩
    | none =>
      match (List.range 29).reverse.find?
          (fun s => divRound (n * 10 ^ s) m ≤ maxMantissaNat) with
      | some s => .ok ⟨sgn * (divRound (n * 10 ^ s) m : Nat), s⟩
      | none => .panic "Division overflowed"

/-- Whether a computation panicked. -/
def PanicOr.isPanic : PanicOr α → Bool
  | .panic _ => true
  | .ok _ => false

/-- `Amount` from `core/types.rs`: a decimal number paired with a
commodity. -/
structure Amount where
  number : Decimal
  commodity : Commodity
  deriving DecidableEq, Repr

namespace Amount

/-- `Amount::new`. -/
def new (number : Decimal) (commodity : Commodity) : Amount :=
  ⟨number, commodity⟩

/-- `Amount::add` from `core/types.rs`: errors with `CommodityMismatch` when
the commodities differ, otherwise adds the numbers (`self.number +
rhs.number`, the panicking `rust_decimal` addition, hence the `PanicOr`
wrapper) and keeps the commodity. -/
def add (self rhs : Amount) : PanicOr (BeanResult Amount) :=
  if self.commodity ≠ rhs.commodity then
    .ok (.error (.CommodityMismatch self.commodity rhs.commodity))
  else
    match Decimal.add self.number rhs.number with
    | .ok n => .ok (.ok (Amount.new n self.commodity))
    | .panic m => .panic m

/-- `Amount::sub` from `core/types.rs`. -/
def sub (self rhs : Amount) : PanicOr (BeanResult Amount) :=
  if self.commodity ≠ rhs.commodity then
    .ok (.error (.CommodityMismatch self.commodity rhs.commodity))
  else
    match Decimal.sub self.number rhs.number with
    | .ok n => .ok (.ok (Amount.new n self.commodity))
    | .panic m => .panic m

/-- `Amount::mul` from `core/types.rs`: always defined on commodities (no
mismatch case), but the inner decimal multiplication can panic. -/
def mul (self : Amount) (number : Decimal) : PanicOr Amount :=
  match Decimal.mul self.number number with
  | .ok n => .ok (Amount.new n self.commodity)
  | .panic m => .panic m

end Amount

/-! ## `core/position.rs` -/

/-- `NaiveDate` modelled as the (year, month, day) triple. -/
structure YMD where
  year : Int
  month : Nat
  day : Nat
  deriving DecidableEq, Repr

/-- Gregorian leap-year test, as used by `chrono`. -/
def isLeapYear (y : Int) : Bool :=
  (y % 4 == 0 && y % 100 != 0) || (y % 400 == 0)

/-- Days in a month of the proleptic Gregorian calendar. -/
def daysInMonth (y : Int) (m : Nat) : Nat :=
  match m with
  | 1 => 31 | 2 => if isLeapYear y then 29 else 28
  | 3 => 31 | 4 => 30 | 5 => 31 | 6 => 30 | 7 => 31
  | 8 => 31 | 9 => 30 | 10 => 31 | 11 => 30 | 12 => 31
  | _ => 0

/-- The validity check of `NaiveDate::from_ymd_opt` (the year range produced
by the lexer, 0–9999, is always representable in `chrono`). -/
def fromYmdOpt (y : Int) (m d : Nat) : Option YMD :=
  if 1 ≤ m && m ≤ 12 && 1 ≤ d && d ≤ daysInMonth y m then some ⟨y, m, d⟩
  else none

/-- `Cost` from `core/position.rs`. -/
structure Cost where
  number : Decimal
  commodity : Commodity
  date : YMD
  label : Option String
  deriving DecidableEq, Repr

/-- `CostSpec` from `core/position.rs`. -/
structure CostSpec where
  number_per : Option Decimal
  number_total : Option Decimal
  commodity : Option Commodity
  date : Option YMD
  label : Option String
  merge : Option Bool
  deriving DecidableEq, Repr

/-- `CostOrSpec` from `core/position.rs`. -/
inductive CostOrSpec
  | Cost (c : Cost)
  | Spec (s : CostSpec)
  deriving DecidableEq, Repr

/-! ## `core/directive.rs` -/

/-- `Metadata` from `core/directive.rs`, with the variants the parser
constructs (`parser.rs` uses `Metadata::Bool`, `Metadata::None`, and applies
`Metadata::Tags` to a single tag string). -/
inductive Metadata
  | StringM (s : String)
  | AccountM (a : Account)
  | CommodityM (c : Commodity)
  | DateM (d : YMD)
  | Tags (s : String)
  | Number (q : Decimal)
  | AmountM (a : Amount)
  | BoolM (b : Bool)
  | NoneM
  deriving DecidableEq, Repr

/-- `MetadataMap` (`HashMap<String, Metadata>`), modelled as an association
list with insert-overwrites semantics; key order is not semantically
significant for any claim. -/
abbrev MetadataMap := List (String × Metadata)

/-- `HashMap::insert`: overwrite the binding of `k` if present, else add it. -/
def insertMM (m : MetadataMap) (k : String) (v : Metadata) : MetadataMap :=
  if m.any (fun p => p.1 == k) then
    m.map (fun p => if p.1 == k then (k, v) else p)
  else
    m ++ [(k, v)]

/-- `HashMap::get`. -/
def lookupMM (m : MetadataMap) (k : String) : Option Metadata :=
  (m.find? (fun p => p.1 == k)).map (·.2)

/-- `pairs.into_iter().collect::<HashMap<_,_>>()`: successive inserts, so the
last occurrence of a key wins. -/
def collectMeta (pairs : List (String × Metadata)) : MetadataMap :=
  pairs.foldl (fun m p => insertMM m p.1 p.2) []

/-- `Posting` from `core/directive.rs`. -/
structure Posting where
  account : Account
  units : Option Amount
  cost : Option CostOrSpec
  price : Option Amount
  flag : Option Char
  meta : MetadataMap
  deriving DecidableEq, Repr

/-- `Posting::new`. -/
def Posting.new (account : Account) (units : Option Amount)
    (cost : Option CostOrSpec) (price : Option Amount) (flag : Option Char)
    (meta : MetadataMap) : Posting :=
  ⟨account, units, cost, price, flag, meta⟩

/-- `DirectiveKind` from `core/directive.rs`.  The booking-method field of
`Open` keeps the `PanicOr` wrapper because the parser converts the raw string
with `s.into()`, which panics on unknown strings. -/
inductive DirectiveKind
  | Open (account : Account) (commodities : List Commodity)
      (booking : Option (PanicOr BookingMethod))
  | Close (account : Account)
  | CommodityK (c : Commodity)
  | Pad (account : Account) (source_account : Account)
  | Balance (account : Account) (amount : Amount) (tolerance : Option Decimal)
      (diff_amount : Option Amount)
  | Transaction (flag : Option Char) (payee : Option String)
      (narration : Option String) (tags : List String) (links : List String)
      (postings : List Posting)
  | Note (account : Account) (comment : String) (tags : List String)
      (links : List String)
  | Event (kind : String) (description : String)
  | Query (name : String) (query : String)
  | PriceK (commodity : Commodity) (amount : Amount)
  | Document (account : Account) (filename : String) (tags : List String)
      (links : List String)
  | Custom (kind : String) (values : List Metadata)
  deriving DecidableEq, Repr

/-- `Directive` from `core/directive.rs`. -/
structure Directive where
  date : YMD
  kind : DirectiveKind
  meta : MetadataMap
  deriving DecidableEq, Repr

/-- `Directive::new`. -/
def Directive.new (date : YMD) (kind : DirectiveKind) (meta : MetadataMap) :
    Directive := ⟨date, kind, meta⟩

/-- `Statement` from `parser.rs` (the `Date`/`String` testing-only variants
are never produced by `parser()` and are omitted). -/
inductive Statement
  | OptionS (key value : String)
  | Plugin (name : String) (arg : Option String)
  | Include (path : String)
  | DirectiveS (d : Directive)
  deriving DecidableEq, Repr

/-! ## `parser.rs`: tokens -/

/-- `Token` from `parser.rs`. -/
inductive Token
  | Open
  | Close
  | CommodityDirective
  | Transaction
  | Balance
  | Pad
  | Note
  | Document
  | Price
  | Event
  | Query
  | Custom
  | OptionT
  | Plugin
  | Include
  | PushTag
  | PopTag
  | Date (d : YMD)
  | Decimal (d : Decimal)
  | StringT (s : String)
  | BoolT (b : Bool)
  | Null
  | AccountT (parts : List String)
  | CommodityT (s : String)
  | Capital (c : Char)
  | Tag (s : String)
  | Link (s : String)
  | Key (s : String)
  | Pipe
  | AtAt
  | At
  | LeftCurlCurl
  | LeftCurl
  | RightCurlCurl
  | RightCurl
  | Comma
  | Tilde
  | Plus
  | Minus
  | Slash
  | LeftParen
  | RightParen
  | Asterisk
  | Exclamation
  | Ampersand
  | Hash
  | Question
  | Percent
  | Newline
  deriving DecidableEq, Repr

/-! ## `parser.rs`: the lexer

A character-level parser is a function from the remaining input to an
optional (output, rest) pair; a failing alternative consumes nothing
(chumsky's backtracking semantics).  Source positions are recovered from the
total length minus the length of the remainder, so they are character
offsets, exactly as chumsky 0.9 assigns spans when parsing a `&str`
(note: `parse_str` builds its line table from *byte* indices via
`match_indices`; the two coincide on ASCII input, and all inputs considered
here are ASCII). -/
abbrev CP (α : Type) := List Char → Option (α × List Char)

/-- `is_uppercase_or_caseless` from `parser.rs` (ASCII restriction of the
Unicode predicates). -/
def is_uppercase_or_caseless (c : Char) : Bool :=
  c.isUpper || (c.isAlpha && !c.isLower)

/-- `one_of(" \r\t")`: the lexer's "safe" horizontal whitespace. -/
def isSafeWsChar (c : Char) : Bool := c == ' ' || c == '\r' || c == '\t'

/-- Rust's `char::is_whitespace` (the Unicode `White_Space` property), used
by chumsky's `padded()` on the comment parser. -/
def isRustWhitespace (c : Char) : Bool :=
  (0x09 ≤ c.val && c.val ≤ 0x0D) || c.val == 0x20 || c.val == 0x85 ||
  c.val == 0xA0 || c.val == 0x1680 || (0x2000 ≤ c.val && c.val ≤ 0x200A) ||
  c.val == 0x2028 || c.val == 0x2029 || c.val == 0x202F || c.val == 0x205F ||
  c.val == 0x3000

/-- `filter(f).repeated()` for single-character filters: greedy span. -/
def spanChars (f : Char → Bool) (s : List Char) : List Char × List Char :=
  (s.takeWhile f, s.dropWhile f)

/-- chumsky's `text::keyword(k)`: parse a C-style identifier and succeed only
when it equals `k`. -/
def keywordP (k : String) : CP Unit := fun s =>
  match s with
  | c :: rest =>
    if c.isAlpha || c == '_' then
      let (tl, r) := spanChars (fun c => c.isAlphanum || c == '_') rest
      if String.mk (c :: tl) == k then some ((), r) else none
    else none
  | [] => none

/-- `choice` over keyword/token pairs, tried in order. -/
def keywordChoices (l : List (String × Token)) : CP Token := fun s =>
  match l with
  | [] => none
  | (k, t) :: rest =>
    match keywordP k s with
    | some (_, r) => some (t, r)
    | none => keywordChoices rest s

/-- The `directive` keyword alternative of the lexer, in source order. -/
def directiveTokenP : CP Token :=
  keywordChoices
    [("open", .Open), ("close", .Close), ("commodity", .CommodityDirective),
     ("txn", .Transaction), ("balance", .Balance), ("pad", .Pad),
     ("note", .Note), ("document", .Document), ("price", .Price),
     ("event", .Event), ("query", .Query), ("custom", .Custom)]

/-- The `command` keyword alternative of the lexer, in source order. -/
def commandTokenP : CP Token :=
  keywordChoices
    [("option", .OptionT), ("plugin", .Plugin), ("include", .Include),
     ("pushtag", .PushTag), ("poptag", .PopTag)]

/-- `filter(is_digit).repeated().exactly(n)`. -/
def digitsN : Nat → CP (List Char)
  | 0 => fun s => some ([], s)
  | n + 1 => fun s =>
    match s with
    | c :: r =>
      if c.isDigit then (digitsN n r).map (fun p => (c :: p.1, p.2)) else none
    | [] => none

/-- Numeric value of a digit string. -/
def natOfDigits (ds : List Char) : Nat :=
  ds.foldl (fun n c => n * 10 + (c.toNat - '0'.toNat)) 0

/-- `just(sep)`-separated `YYYY sep MM sep DD`. -/
def dateBody (sep : Char) : CP (Int × Nat × Nat) := fun s => do
  let (ys, s) ← digitsN 4 s
  match s with
  | c :: s =>
    if c == sep then do
      let (ms, s) ← digitsN 2 s
      match s with
      | c :: s =>
        if c == sep then do
          let (ds, s) ← digitsN 2 s
          pure ((Int.ofNat (natOfDigits ys), natOfDigits ms, natOfDigits ds), s)
        else none
      | [] => none
    else none
  | [] => none

/-- The `date` alternative: either separator form, then the
`NaiveDate::from_ymd_opt` validity check (`try_map`); an invalid date makes
this alternative fail. -/
def dateP : CP Token := fun s =>
  match
    (match dateBody '-' s with
     | some r => some r
     | none => dateBody '/' s) with
  | some ((y, m, d), r) =>
    match fromYmdOpt y m d with
    | some ymd => some (Token.Date ymd, r)
    | none => none
  | none => none

/-- Bring a parsed mantissa into range: excess fractional digits (scale
beyond 28, or a mantissa beyond 96 bits) are dropped one rounded digit at a
time, as `rust_decimal`'s string parser does; an integer part that still
does not fit is a parse error. -/
def fitDecimal : Int → Nat → Option Decimal
  | n, 0 => if n.natAbs ≤ maxMantissaNat then some ⟨n, 0⟩ else none
  | n, s + 1 =>
    if n.natAbs ≤ maxMantissaNat && s + 1 ≤ 28 then some ⟨n, s + 1⟩
    else fitDecimal (roundDiv10 n) s

/-- `Decimal::from_str` on the comma-stripped literal with integer digits
`ip` and fractional digits `fp`: mantissa = all digits, scale = number of
fractional digits, brought into range by `fitDecimal`. -/
def decimalFromParts (ip fp : List Char) : Option Decimal :=
  fitDecimal (natOfDigits (ip ++ fp) : Int) fp.length

/-- The `number` alternative: a digit, then digits or commas, then an
optional `.` followed by digits; commas are stripped before conversion, and
a failing `Decimal::from_str` (`try_map`) makes the alternative fail. -/
def numberP : CP Token := fun s =>
  match s with
  | c :: rest =>
    if c.isDigit then
      let (body, r1) := spanChars (fun c => c.isDigit || c == ',') rest
      let ip := (c :: body).filter (fun c => c != ',')
      match r1 with
      | '.' :: r2 =>
        let (fp, r3) := spanChars Char.isDigit r2
        match decimalFromParts ip fp with
        | some d => some (Token.Decimal d, r3)
        | none => none
      | _ =>
        match decimalFromParts ip [] with
        | some d => some (Token.Decimal d, r1)
        | none => none
    else none
  | [] => none

/-- The string-literal escapes `\\ \/ \" \n \r \t`. -/
def unescape (c : Char) : Option Char :=
  if c == '\\' then some '\\'
  else if c == '/' then some '/'
  else if c == '"' then some '"'
  else if c == 'n' then some '\n'
  else if c == 'r' then some '\r'
  else if c == 't' then some '\t'
  else none

/-- Body of a string literal up to and including the closing quote. -/
def stringBodyChars : List Char → Option (List Char × List Char)
  | [] => none
  | '"' :: rest => some ([], rest)
  | '\\' :: rest =>
    match rest with
    | [] => none
    | e :: rest' =>
      match unescape e with
      | some c => (stringBodyChars rest').map (fun p => (c :: p.1, p.2))
      | none => none
  | c :: rest => (stringBodyChars rest).map (fun p => (c :: p.1, p.2))

/-- The `string` alternative. -/
def stringP : CP Token := fun s =>
  match s with
  | '"' :: r => (stringBodyChars r).map (fun p => (Token.StringT (String.mk p.1), p.2))
  | _ => none

/-- The `bool_` alternative (`TRUE` / `FALSE` keywords). -/
def boolP : CP Token :=
  keywordChoices [("TRUE", .BoolT true), ("FALSE", .BoolT false)]

/-- The `null` alternative (`NULL` keyword). -/
def nullP : CP Token := keywordChoices [("NULL", .Null)]

/-- The continuation character class of account segments. -/
def alnumOrDash (c : Char) : Bool := c.isAlphanum || c == '-'

/-- `ACCOUNTTYPE`. -/
def acctTypeP : CP String := fun s =>
  match s with
  | c :: rest =>
    if is_uppercase_or_caseless c then
      let (tl, r) := spanChars alnumOrDash rest
      some (String.mk (c :: tl), r)
    else none
  | [] => none

/-- `ACCOUNTNAME`. -/
def acctNameP : CP String := fun s =>
  match s with
  | c :: rest =>
    if is_uppercase_or_caseless c || c.isDigit then
      let (tl, r) := spanChars alnumOrDash rest
      some (String.mk (c :: tl), r)
    else none
  | [] => none

/-- The `(':' ACCOUNTNAME)*` tail of `separated_by(just(':'))`; a separator
not followed by a name is left unconsumed (backtracking). -/
def acctMoreGo : Nat → List Char → List String × List Char
  | 0, s => ([], s)
  | fuel + 1, s =>
    match s with
    | ':' :: r =>
      match acctNameP r with
      | some (n, r') =>
        let (ns, r'') := acctMoreGo fuel r'
        (n :: ns, r'')
      | none => ([], s)
    | _ => ([], s)

/-- The `account` alternative: `ACCOUNTTYPE(:ACCOUNTNAME)+`, collected with
the type prepended to the name segments. -/
def accountP : CP Token := fun s => do
  let (ty, s1) ← acctTypeP s
  match s1 with
  | ':' :: s2 => do
    let (n, s3) ← acctNameP s2
    let (ns, s4) := acctMoreGo (s3.length + 1) s3
    pure (Token.AccountT (ty :: n :: ns), s4)
  | _ => none

/-- The continuation character class of commodities. -/
def commodityRestChar (c : Char) : Bool :=
  is_uppercase_or_caseless c || c.isDigit || c == '.' || c == '_' ||
  c == '-' || c == '\''

/-- `commodity_no_slash`: leading uppercase/caseless then at least one
continuation character. -/
def commodityNoSlashP : CP (List Char) := fun s =>
  match s with
  | c :: rest =>
    if is_uppercase_or_caseless c then
      let (tl, r) := spanChars commodityRestChar rest
      if tl.isEmpty then none else some (c :: tl, r)
    else none
  | [] => none

/-- `commodity_slash`: `/` then at least one continuation character, and the
whole string must contain a letter. -/
def commoditySlashP : CP (List Char) := fun s =>
  match s with
  | '/' :: rest =>
    let (tl, r) := spanChars commodityRestChar rest
    if tl.isEmpty then none
    else if tl.any (fun c => c.isAlpha) then some ('/' :: tl, r) else none
  | _ => none

/-- The `commodity` alternative with the terminal-character rule
(`try_map`): must end with an uppercase/caseless letter or a digit. -/
def commodityP : CP Token := fun s =>
  match
    (match commodityNoSlashP s with
     | some r => some r
     | none => commoditySlashP s) with
  | some (cs, r) =>
    match cs.getLast? with
    | some last =>
      if is_uppercase_or_caseless last || last.isDigit then
        some (Token.CommodityT (String.mk cs), r)
      else none
    | none => none
  | none => none

/-- The `capital` alternative: one uppercase/caseless character. -/
def capitalP : CP Token := fun s =>
  match s with
  | c :: r => if is_uppercase_or_caseless c then some (Token.Capital c, r) else none
  | [] => none

/-- Character class of tags and links. -/
def tagChar (c : Char) : Bool :=
  c.isAlphanum || c == '-' || c == '_' || c == '/' || c == '.'

/-- The `tag` alternative. -/
def tagP : CP Token := fun s =>
  match s with
  | '#' :: rest =>
    let (tl, r) := spanChars tagChar rest
    if tl.isEmpty then none else some (Token.Tag (String.mk tl), r)
  | _ => none

/-- The `link` alternative. -/
def linkP : CP Token := fun s =>
  match s with
  | '^' :: rest =>
    let (tl, r) := spanChars tagChar rest
    if tl.isEmpty then none else some (Token.Link (String.mk tl), r)
  | _ => none

/-- Character class of metadata keys after the first character. -/
def keyChar (c : Char) : Bool := c.isAlphanum || c == '-' || c == '_'

/-- The `key` alternative: lowercase-leading identifier whose trailing `:`
is consumed into the token. -/
def keyP : CP Token := fun s =>
  match s with
  | c :: rest =>
    if c.isLower then
      let (tl, r) := spanChars keyChar rest
      match r with
      | ':' :: r' => some (Token.Key (String.mk (c :: tl)), r')
      | _ => none
    else none
  | [] => none

/-- The `punctuation` alternative, in source order (multi-character forms
before their single-character prefixes). -/
def punctuationP : CP Token := fun s =>
  match s with
  | ',' :: r => some (.Comma, r)
  | '@' :: '@' :: r => some (.AtAt, r)
  | '@' :: r => some (.At, r)
  | '!' :: r => some (.Exclamation, r)
  | '*' :: r => some (.Asterisk, r)
  | '(' :: r => some (.LeftParen, r)
  | ')' :: r => some (.RightParen, r)
  | '{' :: '{' :: r => some (.LeftCurlCurl, r)
  | '{' :: r => some (.LeftCurl, r)
  | '}' :: '}' :: r => some (.RightCurlCurl, r)
  | '}' :: r => some (.RightCurl, r)
  | '/' :: r => some (.Slash, r)
  | '-' :: r => some (.Minus, r)
  | '+' :: r => some (.Plus, r)
  | '|' :: r => some (.Pipe, r)
  | '~' :: r => some (.Tilde, r)
  | _ => none

/-- chumsky's `text::newline()`: `\r\n` or any single newline character. -/
def newlineP : CP Token := fun s =>
  match s with
  | '\r' :: '\n' :: r => some (.Newline, r)
  | '\n' :: r => some (.Newline, r)
  | '\x0b' :: r => some (.Newline, r)
  | '\x0c' :: r => some (.Newline, r)
  | '\r' :: r => some (.Newline, r)
  | c :: r =>
    if c.val == 0x85 || c.val == 0x2028 || c.val == 0x2029 then
      some (.Newline, r)
    else none
  | [] => none

/-- The `token` choice of the lexer, alternatives in source order. -/
def tokenChoiceP : CP Token := fun s =>
  match directiveTokenP s with
  | some r => some r
  | none =>
    match commandTokenP s with
    | some r => some r
    | none =>
      match dateP s with
      | some r => some r
      | none =>
        match numberP s with
        | some r => some r
        | none =>
          match stringP s with
          | some r => some r
          | none =>
            match boolP s with
            | some r => some r
            | none =>
              match nullP s with
              | some r => some r
              | none =>
                match accountP s with
                | some r => some r
                | none =>
                  match commodityP s with
                  | some r => some r
                  | none =>
                    match capitalP s with
                    | some r => some r
                    | none =>
                      match tagP s with
                      | some r => some r
                      | none =>
                        match linkP s with
                        | some r => some r
                        | none =>
                          match keyP s with
                          | some r => some r
                          | none =>
                            match punctuationP s with
                            | some r => some r
                            | none => newlineP s

/-- `take_until(just('\n'))`: consume characters up to *and including* the
next newline. -/
def takeUntilNewline : List Char → Option (List Char)
  | [] => none
  | c :: rest => if c = '\n' then some rest else takeUntilNewline rest

/-- The `comment` parser: `just(';').then(take_until(just('\n'))).padded()`.
`padded()` ignores arbitrary whitespace (including newlines) on both sides. -/
def commentP : CP Unit := fun s =>
  match s.dropWhile isRustWhitespace with
  | ';' :: rest =>
    (takeUntilNewline rest).map (fun r => ((), r.dropWhile isRustWhitespace))
  | _ => none

/-- `comment.repeated()` (each comment consumes at least the `;`). -/
def commentsGo : Nat → List Char → List Char
  | 0, s => s
  | fuel + 1, s =>
    match commentP s with
    | some (_, r) => commentsGo fuel r
    | none => s

/-- `comment.repeated()`, self-fuelled. -/
def commentsP (s : List Char) : List Char := commentsGo (s.length + 1) s

/-- `skip_then_retry_until([])`: after a failure, repeatedly skip one
character and retry the token parser; fails at end of input. -/
def skipRetryGo : List Char → Option (Token × List Char)
  | [] => none
  | _ :: rest =>
    match tokenChoiceP rest with
    | some tr => some tr
    | none => skipRetryGo rest

/-- One element of the lexer's `repeated()`:
`token.map_with_span(..).padded_by(safe_whitespace).padded_by(comment.repeated())`,
with the recovery strategy on `token`.  Returns the spanned token, the rest
of the input, and the recovery-error positions emitted (one per recovery
activation, at the position of the original failure). -/
def lexElement (L : Nat) (s : List Char) :
    Option ((Token × Nat × Nat) × List Char × List Nat) :=
  let s1 := (commentsP s).dropWhile isSafeWsChar
  match tokenChoiceP s1 with
  | some (t, r) =>
    let r' := commentsP (r.dropWhile isSafeWsChar)
    some ((t, L - s1.length, L - r.length), r', [])
  | none =>
    if s1.isEmpty then none
    else
      match skipRetryGo s1 with
      | some (t, r) =>
        let r' := commentsP (r.dropWhile isSafeWsChar)
        some ((t, L - s1.length, L - r.length), r', [L - s1.length])
      | none => none

/-- The lexer's `repeated()` loop; a failing element consumes nothing. -/
def lexLoopGo (L : Nat) : Nat → List Char →
    List (Token × Nat × Nat) × List Nat × List Char
  | 0, s => ([], [], s)
  | fuel + 1, s =>
    match lexElement L s with
    | none => ([], [], s)
    | some (ts, r, es) =>
      let (ts', es', rend) := lexLoopGo L fuel r
      (ts :: ts', es ++ es', rend)

/-- `lexer().parse_recovery(src)`: the token list (with character spans) when
the whole input was consumed (`then_ignore(end())`), otherwise `none` plus a
final error.  Error payloads of `Simple<char>` are modelled as their source
positions only. -/
def lexer (src : List Char) : Option (List (Token × Nat × Nat)) × List Nat :=
  let L := src.length
  let (ts, errs, rest) := lexLoopGo L (L + 1) src
  if rest.isEmpty then (some ts, errs)
  else (none, errs ++ [L - rest.length])

/-! ## `parser.rs`: the statement parser

Token-level parsers mirror `parser()`.  The input is the spanned token list
produced by the lexer; `end()` succeeds on the empty list.  The only span
information the source ever reads is `span.start` in the
`map_with_span` around the directive choice, so that is the only span the
embedding computes (the start of the first remaining token, or the
end-of-input position `L`). -/
abbrev TS := List (Token × Nat × Nat)

abbrev TP (α : Type) := TS → Option (α × TS)

/-- `just(t)` at token level. -/
def tjust (t : Token) : TP Unit := fun s =>
  match s with
  | (t', _, _) :: r => if t' = t then some ((), r) else none
  | [] => none

/-- `end()` at token level. -/
def tend : TP Unit := fun s => if s.isEmpty then some ((), s) else none

/-- `end_of_line`: a `Newline` token or the end of input. -/
def end_of_line : TP Unit := fun s =>
  match tjust .Newline s with
  | some r => some r
  | none => tend s

/-- `p.or_not()`. -/
def torNot (p : TP α) : TP (Option α) := fun s =>
  match p s with
  | some (a, r) => some (some a, r)
  | none => some (none, s)

/-- `p.repeated()` (inner loop, fuelled). -/
def tmanyGo (p : TP α) : Nat → TS → List α × TS
  | 0, s => ([], s)
  | fuel + 1, s =>
    match p s with
    | none => ([], s)
    | some (a, s') =>
      let (as_, s'') := tmanyGo p fuel s'
      (a :: as_, s'')

/-- `p.repeated()`: every repeated element below consumes at least one token
on success, so fuel `length + 1` realises the unbounded semantics. -/
def tmany (p : TP α) : TP (List α) := fun s =>
  some (tmanyGo p (s.length + 1) s)

/-- The `string` select. -/
def tstring : TP String := fun s =>
  match s with
  | (Token.StringT v, _, _) :: r => some (v, r)
  | _ => none

/-- The `date` select. -/
def tdate : TP YMD := fun s =>
  match s with
  | (Token.Date d, _, _) :: r => some (d, r)
  | _ => none

/-- The `account` select (`Account::from(parts)`). -/
def taccount : TP Account := fun s =>
  match s with
  | (Token.AccountT parts, _, _) :: r => some (Account.fromParts parts, r)
  | _ => none

/-- The `commodity` select: `s.parse::<Commodity>().unwrap()` — since
`Commodity::from_str` never fails, this is just the wrapped string. -/
def tcommodity : TP Commodity := fun s =>
  match s with
  | (Token.CommodityT v, _, _) :: r => some (⟨v⟩, r)
  | _ => none

/-- The `tag` select. -/
def ttag : TP String := fun s =>
  match s with
  | (Token.Tag v, _, _) :: r => some (v, r)
  | _ => none

/-- The `bool_` select. -/
def tbool : TP Bool := fun s =>
  match s with
  | (Token.BoolT b, _, _) :: r => some (b, r)
  | _ => none

/-- The `Token::Key` select of `metadata_line`. -/
def tkey : TP String := fun s =>
  match s with
  | (Token.Key v, _, _) :: r => some (v, r)
  | _ => none

/-- The `capital` select of the flag parser. -/
def tcapital : TP Char := fun s =>
  match s with
  | (Token.Capital c, _, _) :: r => some (c, r)
  | _ => none

/-- One `('*'|'/') unary` tail item of `product` / one `('+'|'-') product`
tail item of `sum` — the operator token select. -/
def isSignTok (t : Token) : Bool := t == .Minus || t == .Plus

/-- The `atom` of `expr_parser()`: a decimal literal or a parenthesised
expression; `rec` is the recursive occurrence of the whole expression
parser. -/
def exprAtomF (rec : TP Decimal) : TP Decimal := fun s =>
  match s with
  | (Token.Decimal d, _, _) :: r => some (d, r)
  | (Token.LeftParen, _, _) :: r =>
    match rec r with
    | some (v, (Token.RightParen, _, _) :: r') => some (v, r')
    | _ => none
  | _ => none

/-- The `unary` level: leading signs folded right-to-left over the atom
(decimal negation is exact and total). -/
def exprUnaryF (rec : TP Decimal) : TP Decimal := fun s =>
  match exprAtomF rec (s.dropWhile (fun p => isSignTok p.1)) with
  | some (v, r) =>
    some (((s.takeWhile (fun p => isSignTok p.1)).map (·.1)).foldr
      (fun op n => if op == Token.Minus then Decimal.neg n else n) v, r)
  | none => none

/-- One `('*'|'/') unary` tail item of `product`. -/
def exprProdTailF (rec : TP Decimal) : TP (Token × Decimal) := fun s =>
  match s with
  | (op, _, _) :: r =>
    if op == Token.Asterisk || op == Token.Slash then
      match exprUnaryF rec r with
      | some (u, r') => some ((op, u), r')
      | none => none
    else none
  | [] => none

/-- The left fold of the `product` (and `sum`) level over the checked
decimal operations.  In Rust a panicking operation aborts the whole
process; the model maps such an abort to failure of the parse (no claim
exercises arithmetic panics inside the parser). -/
def foldOps (op : Token → Decimal → Decimal → PanicOr Decimal)
    (v : Decimal) (tl : List (Token × Decimal)) : PanicOr Decimal :=
  tl.foldl (fun acc p =>
    match acc with
    | .panic m => .panic m
    | .ok l => op p.1 l p.2) (.ok v)

/-- The `product` level: `unary (('*'|'/') unary)*`, folded left. -/
def exprProductF (rec : TP Decimal) : TP Decimal := fun s =>
  match exprUnaryF rec s with
  | some (v, s1) =>
    match tmanyGo (exprProdTailF rec) (s1.length + 1) s1 with
    | (tl, s2) =>
      match foldOps
          (fun op l r =>
            if op == Token.Asterisk then Decimal.mul l r else Decimal.div l r)
          v tl with
      | .ok w => some (w, s2)
      | .panic _ => none
  | none => none

/-- One `('+'|'-') product` tail item of `sum`. -/
def exprSumTailF (rec : TP Decimal) : TP (Token × Decimal) := fun s =>
  match s with
  | (op, _, _) :: r =>
    if op == Token.Plus || op == Token.Minus then
      match exprProductF rec r with
      | some (u, r') => some ((op, u), r')
      | none => none
    else none
  | [] => none

/-- The `sum` level: `product (('+'|'-') product)*`, folded left. -/
def exprSumF (rec : TP Decimal) : TP Decimal := fun s =>
  match exprProductF rec s with
  | some (v, s1) =>
    match tmanyGo (exprSumTailF rec) (s1.length + 1) s1 with
    | (tl, s2) =>
      match foldOps
          (fun op l r =>
            if op == Token.Plus then Decimal.add l r else Decimal.sub l r)
          v tl with
      | .ok w => some (w, s2)
      | .panic _ => none
  | none => none

/-- `expr_parser()` from `parser.rs`, fuelled for the recursion through
parenthesised atoms (each recursive call follows the consumption of `(`). -/
def exprGo : Nat → TP Decimal
  | 0, _ => none
  | fuel + 1, s => exprSumF (exprGo fuel) s

/-- `expr_parser()`, self-fuelled. -/
def exprP : TP Decimal := fun s => exprGo (s.length + 1) s

/-- One repeated `, commodity` tail item of the commodity list. -/
def commodityTailP : TP Commodity := fun s =>
  match tjust .Comma s with
  | some (_, r) => tcommodity r
  | none => none

/-- `commodity.separated_by(just(Token::Comma))` (zero or more; a trailing
comma is left unconsumed). -/
def commodityListP : TP (List Commodity) := fun s =>
  match tcommodity s with
  | none => some ([], s)
  | some (c, s1) =>
    let (cs, s2) := tmanyGo commodityTailP (s1.length + 1) s1
    some (c :: cs, s2)

/-- The `amount` parser: an expression followed by a commodity. -/
def amountP : TP Amount := fun s => do
  let (n, s) ← exprP s
  let (c, s) ← tcommodity s
  pure (Amount.new n c, s)

/-- `amount_tolerance`: a plain amount, or `Expr '~' Expr Commodity`. -/
def amountToleranceP : TP (Amount × Option Decimal) := fun s =>
  match amountP s with
  | some (a, r) => some ((a, none), r)
  | none => do
    let (n, s) ← exprP s
    let (_, s) ← tjust .Tilde s
    let (tol, s) ← exprP s
    let (c, s) ← tcommodity s
    pure ((Amount.new n c, some tol), s)

/-- `metadata_value`, alternatives in source order. -/
def metadataValueP : TP Metadata := fun s =>
  match tstring s with
  | some (v, r) => some (Metadata.StringM v, r)
  | none =>
    match taccount s with
    | some (v, r) => some (Metadata.AccountM v, r)
    | none =>
      match tdate s with
      | some (v, r) => some (Metadata.DateM v, r)
      | none =>
        match tcommodity s with
        | some (v, r) => some (Metadata.CommodityM v, r)
        | none =>
          match ttag s with
          | some (v, r) => some (Metadata.Tags v, r)
          | none =>
            match tbool s with
            | some (v, r) => some (Metadata.BoolM v, r)
            | none =>
              match tjust .Null s with
              | some (_, r) => some (Metadata.NoneM, r)
              | none =>
                match amountP s with
                | some (v, r) => some (Metadata.AmountM v, r)
                | none =>
                  match exprP s with
                  | some (v, r) => some (Metadata.Number v, r)
                  | none => none

/-- `metadata_line`: `Key MetadataValue EOL`. -/
def metadataLineP : TP (String × Metadata) := fun s => do
  let (k, s) ← tkey s
  let (v, s) ← metadataValueP s
  let (_, s) ← end_of_line s
  pure ((k, v), s)

/-- `metadata`: repeated metadata lines collected into a map. -/
def metadataP : TP MetadataMap := fun s =>
  (tmany metadataLineP s).map (fun p => (collectMeta p.1, p.2))

/-- `tags_links`: repeated tag/link tokens accumulated into two sets
(`HashSet` modelled as a duplicate-free insertion-ordered list). -/
def hsInsert (l : List String) (x : String) : List String :=
  if x ∈ l then l else l ++ [x]

/-- One repeated tag-or-link token of `tags_links`. -/
def tagLinkItemP : TP Token := fun s =>
  match s with
  | (Token.Tag v, _, _) :: r => some (Token.Tag v, r)
  | (Token.Link v, _, _) :: r => some (Token.Link v, r)
  | _ => none

/-- `tags_links`. -/
def tagsLinksP : TP (List String × List String) := fun s =>
  (tmany tagLinkItemP s).map (fun p =>
    (p.1.foldl (fun acc t =>
      match t with
      | Token.Tag v => (hsInsert acc.1 v, acc.2)
      | Token.Link v => (acc.1, hsInsert acc.2 v)
      | _ => acc) ([], []), p.2))

/-- The `flag` parser: `txn ! & # ? % *` or a capital letter, in source
order. -/
def flagP : TP Char := fun s =>
  match tjust .Transaction s with
  | some (_, r) => some ('*', r)
  | none =>
    match tjust .Exclamation s with
    | some (_, r) => some ('!', r)
    | none =>
      match tjust .Ampersand s with
      | some (_, r) => some ('&', r)
      | none =>
        match tjust .Hash s with
        | some (_, r) => some ('#', r)
        | none =>
          match tjust .Question s with
          | some (_, r) => some ('?', r)
          | none =>
            match tjust .Percent s with
            | some (_, r) => some ('%', r)
            | none =>
              match tjust .Asterisk s with
              | some (_, r) => some ('*', r)
              | none => tcapital s

/-- `PostingOrMetadata` from `transaction_directive`. -/
inductive PostingOrMetadata
  | PostingPM (p : Posting)
  | MetadataPM (key : String) (value : Metadata)
  deriving DecidableEq, Repr

/-- The `posting` parser: `Flag? Account EOL`, units/cost/price left empty. -/
def postingP : TP Posting := fun s => do
  let (flag, s) ← torNot flagP s
  let (account, s) ← taccount s
  let (_, s) ← end_of_line s
  pure (Posting.new account none none none flag [], s)

/-- `posting_or_metadata`. -/
def postingOrMetadataP : TP PostingOrMetadata := fun s =>
  match postingP s with
  | some (p, r) => some (PostingOrMetadata.PostingPM p, r)
  | none =>
    match metadataLineP s with
    | some ((k, v), r) => some (PostingOrMetadata.MetadataPM k v, r)
    | none => none

/-- The posting/metadata attachment loop of `transaction_directive`
(`parser.rs` lines 717–745): iterate over the flat item sequence keeping a
`current_posting` slot; a posting flushes the previous current posting, a
metadata line goes to the current posting when one exists and to the
transaction's own metadata otherwise; on exit the current posting is
flushed. -/
def txAttachGo : List PostingOrMetadata → MetadataMap → List Posting →
    Option Posting → MetadataMap × List Posting
  | [], m, ps, Option.none => (m, ps)
  | [], m, ps, some c => (m, ps ++ [c])
  | .PostingPM p :: rest, m, ps, Option.none => txAttachGo rest m ps (some p)
  | .PostingPM p :: rest, m, ps, some c => txAttachGo rest m (ps ++ [c]) (some p)
  | .MetadataPM k v :: rest, m, ps, some c =>
    txAttachGo rest m ps (some { c with meta := insertMM c.meta k v })
  | .MetadataPM k v :: rest, m, ps, Option.none =>
    txAttachGo rest (insertMM m k v) ps Option.none

/-- The whole attachment pass starting from empty transaction metadata, no
postings and no current posting. -/
def txAttach (items : List PostingOrMetadata) : MetadataMap × List Posting :=
  txAttachGo items [] [] Option.none

/-- `transaction_directive` (payee/narration disambiguation of the one- and
two-string forms, then the attachment loop). -/
def transactionDirectiveP : TP Statement := fun s => do
  let (date, s) ← tdate s
  let (flag, s) ← flagP s
  let (strA, s) ← torNot tstring s
  let (strB, s) ← torNot tstring s
  let (_, s) ← end_of_line s
  let (other, s) ← tmany postingOrMetadataP s
  let payeeNarration : Option String × Option String :=
    match strA, strB with
    | some a, some b => (some a, some b)
    | some a, Option.none => (Option.none, some a)
    | _, _ => (Option.none, Option.none)
  let (txMeta, postings) := txAttach other
  pure (Statement.DirectiveS (Directive.new date
    (.Transaction (some flag) payeeNarration.1 payeeNarration.2 [] [] postings)
    txMeta), s)

/-- `open_directive`. -/
def openDirectiveP : TP Statement := fun s => do
  let (date, s) ← tdate s
  let (_, s) ← tjust .Open s
  let (account, s) ← taccount s
  let (commodities, s) ← commodityListP s
  let (booking, s) ← torNot tstring s
  let (_, s) ← end_of_line s
  let (meta, s) ← torNot metadataP s
  pure (Statement.DirectiveS (Directive.new date
    (.Open account commodities (booking.map bookingMethodFromString))
    (meta.getD [])), s)

/-- `close_directive`. -/
def closeDirectiveP : TP Statement := fun s => do
  let (date, s) ← tdate s
  let (_, s) ← tjust .Close s
  let (account, s) ← taccount s
  let (_, s) ← end_of_line s
  let (meta, s) ← torNot metadataP s
  pure (Statement.DirectiveS (Directive.new date (.Close account) (meta.getD [])), s)

/-- `commodity_directive`. -/
def commodityDirectiveP : TP Statement := fun s => do
  let (date, s) ← tdate s
  let (_, s) ← tjust .CommodityDirective s
  let (c, s) ← tcommodity s
  let (_, s) ← end_of_line s
  let (meta, s) ← torNot metadataP s
  pure (Statement.DirectiveS (Directive.new date (.CommodityK c) (meta.getD [])), s)

/-- `pad_directive`. -/
def padDirectiveP : TP Statement := fun s => do
  let (date, s) ← tdate s
  let (_, s) ← tjust .Pad s
  let (account, s) ← taccount s
  let (source_account, s) ← taccount s
  let (_, s) ← end_of_line s
  let (meta, s) ← torNot metadataP s
  pure (Statement.DirectiveS (Directive.new date (.Pad account source_account)
    (meta.getD [])), s)

/-- `balance_directive`. -/
def balanceDirectiveP : TP Statement := fun s => do
  let (date, s) ← tdate s
  let (_, s) ← tjust .Balance s
  let (account, s) ← taccount s
  let (at_, s) ← amountToleranceP s
  let (_, s) ← end_of_line s
  let (meta, s) ← torNot metadataP s
  pure (Statement.DirectiveS (Directive.new date
    (.Balance account at_.1 at_.2 none) (meta.getD [])), s)

/-- `note_directive`. -/
def noteDirectiveP : TP Statement := fun s => do
  let (date, s) ← tdate s
  let (_, s) ← tjust .Note s
  let (account, s) ← taccount s
  let (comment, s) ← tstring s
  let (tl, s) ← tagsLinksP s
  let (_, s) ← end_of_line s
  let (meta, s) ← torNot metadataP s
  pure (Statement.DirectiveS (Directive.new date
    (.Note account comment tl.1 tl.2) (meta.getD [])), s)

/-- `event_directive`. -/
def eventDirectiveP : TP Statement := fun s => do
  let (date, s) ← tdate s
  let (_, s) ← tjust .Event s
  let (kind, s) ← tstring s
  let (description, s) ← tstring s
  let (_, s) ← end_of_line s
  let (meta, s) ← torNot metadataP s
  pure (Statement.DirectiveS (Directive.new date (.Event kind description)
    (meta.getD [])), s)

/-- `query_directive`. -/
def queryDirectiveP : TP Statement := fun s => do
  let (date, s) ← tdate s
  let (_, s) ← tjust .Query s
  let (name, s) ← tstring s
  let (query, s) ← tstring s
  let (_, s) ← end_of_line s
  let (meta, s) ← torNot metadataP s
  pure (Statement.DirectiveS (Directive.new date (.Query name query)
    (meta.getD [])), s)

/-- `price_directive`. -/
def priceDirectiveP : TP Statement := fun s => do
  let (date, s) ← tdate s
  let (_, s) ← tjust .Price s
  let (c, s) ← tcommodity s
  let (amount, s) ← amountP s
  let (_, s) ← end_of_line s
  let (meta, s) ← torNot metadataP s
  pure (Statement.DirectiveS (Directive.new date (.PriceK c amount)
    (meta.getD [])), s)

/-- `document_directive`. -/
def documentDirectiveP : TP Statement := fun s => do
  let (date, s) ← tdate s
  let (_, s) ← tjust .Document s
  let (account, s) ← taccount s
  let (filename, s) ← tstring s
  let (tl, s) ← tagsLinksP s
  let (_, s) ← end_of_line s
  let (meta, s) ← torNot metadataP s
  pure (Statement.DirectiveS (Directive.new date
    (.Document account filename tl.1 tl.2) (meta.getD [])), s)

/-- `custom_directive`. -/
def customDirectiveP : TP Statement := fun s => do
  let (date, s) ← tdate s
  let (_, s) ← tjust .Custom s
  let (kind, s) ← tstring s
  let (values, s) ← tmany metadataValueP s
  let (_, s) ← end_of_line s
  let (meta, s) ← torNot metadataP s
  pure (Statement.DirectiveS (Directive.new date (.Custom kind values)
    (meta.getD [])), s)

/-- The twelve-way `choice` over the directive bodies, in source order. -/
def directiveChoiceP : TP Statement := fun s =>
  match openDirectiveP s with
  | some r => some r
  | none =>
    match closeDirectiveP s with
    | some r => some r
    | none =>
      match commodityDirectiveP s with
      | some r => some r
      | none =>
        match padDirectiveP s with
        | some r => some r
        | none =>
          match balanceDirectiveP s with
          | some r => some r
          | none =>
            match transactionDirectiveP s with
            | some r => some r
            | none =>
              match noteDirectiveP s with
              | some r => some r
              | none =>
                match eventDirectiveP s with
                | some r => some r
                | none =>
                  match queryDirectiveP s with
                  | some r => some r
                  | none =>
                    match priceDirectiveP s with
                    | some r => some r
                    | none =>
                      match documentDirectiveP s with
                      | some r => some r
                      | none => customDirectiveP s

/-- The `line_lookup` closure of `parse_str`: the `BTreeMap` maps the k-th
newline position (1-indexed k) to k, and the lookup takes the value of the
greatest key at or below `pos`, defaulting to 1. -/
def lineLookup (nls : List Nat) (pos : Nat) : Nat :=
  match (nls.filter (fun i => i ≤ pos)).length with
  | 0 => 1
  | n + 1 => n + 1

/-- Positions of `'\n'` in the source (`src.match_indices('\n')`; character
positions, which agree with byte positions on ASCII input). -/
def newlinePositions (s : List Char) : List Nat :=
  (List.range s.length).filter (fun i => s.get? i = some '\n')

/-- The metadata injection of the `map_with_span` around the directive
choice: `meta["filename"]` and `meta["lineno"]`, overwriting user-supplied
entries. -/
def injectMeta (filename : String) (nls : List Nat) (start : Nat)
    (d : Directive) : Directive :=
  Directive.new d.date d.kind
    (insertMM (insertMM d.meta "filename" (.StringM filename))
      "lineno" (.Number (lineLookup nls start)))

/-- The `match` inside `map_with_span`: only `Statement::Directive` is
rewritten. -/
def injectStatement (filename : String) (nls : List Nat) (start : Nat) :
    Statement → Statement
  | .DirectiveS d => .DirectiveS (injectMeta filename nls start d)
  | st => st

/-- `span.start` of a parse beginning at token state `s` (the first
remaining token's span start, or the end-of-input position `L`). -/
def spanStartOf (L : Nat) (s : TS) : Nat :=
  match s with
  | (_, a, _) :: _ => a
  | [] => L

/-- The `directive` parser: the twelve-way choice wrapped in
`map_with_span` injecting the provenance metadata. -/
def directiveP (filename : String) (nls : List Nat) (L : Nat) :
    TP Statement := fun s =>
  (directiveChoiceP s).map (fun p =>
    (injectStatement filename nls (spanStartOf L s) p.1, p.2))

/-- The `option` statement. -/
def optionStatementP : TP Statement := fun s =>
  match tjust .OptionT s with
  | none => none
  | some (_, s) =>
    match tstring s with
    | none => none
    | some (key, s) =>
      match tstring s with
      | none => none
      | some (value, s) =>
        match end_of_line s with
        | none => none
        | some (_, s) => some (Statement.OptionS key value, s)

/-- The `plugin` statement. -/
def pluginStatementP : TP Statement := fun s =>
  match tjust .Plugin s with
  | none => none
  | some (_, s) =>
    match tstring s with
    | none => none
    | some (name, s) =>
      match torNot tstring s with
      | none => none
      | some (arg, s) =>
        match end_of_line s with
        | none => none
        | some (_, s) => some (Statement.Plugin name arg, s)

/-- The `include` statement. -/
def includeStatementP : TP Statement := fun s =>
  match tjust .Include s with
  | none => none
  | some (_, s) =>
    match tstring s with
    | none => none
    | some (path, s) =>
      match end_of_line s with
      | none => none
      | some (_, s) => some (Statement.Include path, s)

/-- The `statement` choice, in source order. -/
def statementP (filename : String) (nls : List Nat) (L : Nat) :
    TP Statement := fun s =>
  match optionStatementP s with
  | some r => some r
  | none =>
    match pluginStatementP s with
    | some r => some r
    | none =>
      match includeStatementP s with
      | some r => some r
      | none => directiveP filename nls L s

/-- `statement.padded_by(just(Token::Newline).repeated())`. -/
def statementElementP (filename : String) (nls : List Nat) (L : Nat) :
    TP Statement := fun s =>
  match statementP filename nls L
      (s.dropWhile (fun p => p.1 == Token.Newline)) with
  | some (st, r) => some (st, r.dropWhile (fun p => p.1 == Token.Newline))
  | none => none

/-- The statement `repeated()` loop. -/
def stLoopGo (filename : String) (nls : List Nat) (L : Nat) :
    Nat → TS → List Statement × TS
  | 0, s => ([], s)
  | fuel + 1, s =>
    match statementElementP filename nls L s with
    | none => ([], s)
    | some (st, r) =>
      let (sts, rend) := stLoopGo filename nls L fuel r
      (st :: sts, rend)

/-- `parser(filename, line_lookup).parse_recovery(stream)`: the statement
parser has no recovery combinators, so it either consumes the whole token
stream (`then_ignore(end())`) and succeeds, or fails with `None`. -/
def parserRun (filename : String) (nls : List Nat) (L : Nat) (ts : TS) :
    Option (List Statement) :=
  match stLoopGo filename nls L (ts.length + 1) ts with
  | (sts, rest) => if rest.isEmpty then some sts else none

/-- An error of `parse_str` (`Simple<String>`), modelled as the stage it
came from plus its source position; the payloads (expected/found sets,
labels) are not modelled since no claim inspects them. -/
inductive PErr
  | lexE (pos : Nat)
  | parseE (pos : Nat)
  deriving DecidableEq, Repr

/-- `parse_str` from `parser.rs`: build the newline table, lex, and — when
the lexer produced a token list — run the statement parser on it; the error
vector chains the lexer errors with the parser errors. -/
def parse_str (filename : String) (src : String) :
    Option (List Statement) × List PErr :=
  match lexer src.data with
  | (some ts, lexErrs) =>
    match parserRun filename (newlinePositions src.data) src.data.length ts with
    | some stmts => (some stmts, lexErrs.map PErr.lexE)
    | none =>
      (none, lexErrs.map PErr.lexE ++
        [PErr.parseE (spanStartOf src.data.length ts)])
  | (none, lexErrs) => (none, lexErrs.map PErr.lexE)

/-! ## Specification-side definitions

The following definitions are written from the specification's words (not
from the source); they exist only to be compared with the source-derived
definitions above. -/

/-- Written from the spec's words for the posting segment of a transaction
body: the current posting absorbs each following metadata line into its own
metadata until the next posting line starts a new segment; every posting
line appears in the output, in source order, including the last one. -/
def specPostingsSeg : Posting → List PostingOrMetadata → List Posting
  | c, [] => [c]
  | c, .PostingPM p :: rest => c :: specPostingsSeg p rest
  | c, .MetadataPM k v :: rest =>
    specPostingsSeg { c with meta := insertMM c.meta k v } rest

/-- Written from the spec's words for the whole attachment pass: metadata
lines that precede every posting line go to the transaction's own metadata;
from the first posting line on, metadata lines attach to the most recent
posting. -/
def specAttach : List PostingOrMetadata → MetadataMap →
    MetadataMap × List Posting
  | [], m => (m, [])
  | .PostingPM p :: rest, m => (m, specPostingsSeg p rest)
  | .MetadataPM k v :: rest, m => specAttach rest (insertMM m k v)

/-- Written from the spec's words: the 1-based line number of character
offset `pos` — one more than the number of newlines strictly before `pos`. -/
def lineNumber1 (s : List Char) (pos : Nat) : Nat :=
  1 + ((newlinePositions s).filter (fun i => i < pos)).length

/-- Written from the claim's words: the value of the *last* occurrence of a
key in a metadata-line sequence. -/
def lastValue (pairs : List (String × Metadata)) (k : String) :
    Option Metadata :=
  (pairs.reverse.find? (fun p => p.1 == k)).map (·.2)

/-- A token parser consumes: on success the remaining stream is a suffix of
the input stream.  Every parser reachable from `statement` has this
property; it ties each parse back to an actual tail of the lexer's token
list. -/
def Consuming {α : Type} (p : TP α) : Prop :=
  ∀ s a r, p s = some (a, r) → r <:+ s

/-! ## Helper lemmas about the metadata map -/

theorem find?_map_overwrite (m : MetadataMap) (k : String) (v : Metadata)
    (h : m.any (fun p => p.1 == k) = true) :
    (m.map (fun p => if p.1 == k then (k, v) else p)).find?
      (fun p => p.1 == k) = some (k, v) := by
  induction m with
  | nil => simp at h
  | cons q rest ih =>
    by_cases hq : (q.1 == k) = true
    · simp only [List.map_cons]
      rw [if_pos hq, List.find?_cons]
      simp
    · simp only [List.any_cons, hq, Bool.false_or] at h
      have hf : (q.1 == k) = false := by simpa using hq
      simp only [List.map_cons]
      rw [if_neg hq, List.find?_cons]
      simp only [hf]
      exact ih h

theorem find?_map_overwrite_ne (m : MetadataMap) (k k' : String)
    (v : Metadata) (h : k' ≠ k) :
    (m.map (fun p => if p.1 == k then (k, v) else p)).find?
      (fun p => p.1 == k') = m.find? (fun p => p.1 == k') := by
  induction m with
  | nil => simp
  | cons q rest ih =>
    by_cases hq : (q.1 == k) = true
    · have hqk : q.1 = k := by simpa using hq
      have h1 : (k == k') = false := by
        simp
        exact fun hh => h hh.symm
      have h2 : (q.1 == k') = false := by
        simp [hqk]
        exact fun hh => h hh.symm
      simp only [List.map_cons]
      rw [if_pos hq, List.find?_cons, List.find?_cons]
      simp only [h1, h2]
      exact ih
    · simp only [List.map_cons]
      rw [if_neg hq, List.find?_cons, List.find?_cons]
      cases hq' : (q.1 == k') <;> simp only [hq', ih]

theorem lookupMM_insertMM_self (m : MetadataMap) (k : String) (v : Metadata) :
    lookupMM (insertMM m k v) k = some v := by
  unfold insertMM lookupMM
  by_cases h : m.any (fun p => p.1 == k) = true
  · rw [if_pos h, find?_map_overwrite m k v h]
    rfl
  · rw [if_neg h]
    have hnone : m.find? (fun p => p.1 == k) = none := by
      rw [List.find?_eq_none]
      intro x hx hpx
      exact h (List.any_eq_true.mpr ⟨x, hx, hpx⟩)
    rw [List.find?_append, hnone]
    simp [List.find?_cons]

theorem lookupMM_insertMM_ne (m : MetadataMap) (k k' : String) (v : Metadata)
    (h : k' ≠ k) : lookupMM (insertMM m k v) k' = lookupMM m k' := by
  unfold insertMM lookupMM
  by_cases hany : m.any (fun p => p.1 == k) = true
  · rw [if_pos hany, find?_map_overwrite_ne m k k' v h]
  · rw [if_neg hany, List.find?_append]
    have h1 : (k == k') = false := by
      simp
      exact fun hh => h hh.symm
    have h2 : ([(k, v)].find? (fun p => p.1 == k')) = none := by
      rw [List.find?_cons]
      simp only [h1]
      rfl
    rw [h2]
    cases m.find? (fun p => p.1 == k') <;> simp

/-! ## Claims about the domain types -/

set_option maxRecDepth 10000 in
/-- C4 (counterexample): adding `Decimal::MAX USD` to itself has equal
commodities, yet the operation panics (decimal addition overflow) instead
of returning `Ok` — refuting "never panic; when the commodities are equal
they return Ok". -/
theorem C4_counterexample :
    (Amount.new Decimal.MAX ⟨"USD"⟩).commodity =
      (Amount.new Decimal.MAX ⟨"USD"⟩).commodity ∧
    (Amount.add (Amount.new Decimal.MAX ⟨"USD"⟩)
      (Amount.new Decimal.MAX ⟨"USD"⟩)).isPanic = true :=
  ⟨rfl, by decide⟩

/-- C4 (amended): `Amount::add` and `Amount::sub` return
`Err(CommodityMismatch(a.commodity, b.commodity))` exactly when the two
commodities differ (that path never panics); when the commodities agree
they return `Ok` of an amount carrying the same commodity whenever the
underlying decimal operation does not overflow, and they panic exactly when
the decimal operation overflows. -/
theorem C4_amount_mismatch (a b : Amount) :
    (Amount.add a b =
        .ok (.error (.CommodityMismatch a.commodity b.commodity)) ↔
      a.commodity ≠ b.commodity) ∧
    (Amount.sub a b =
        .ok (.error (.CommodityMismatch a.commodity b.commodity)) ↔
      a.commodity ≠ b.commodity) ∧
    (a.commodity = b.commodity →
      (∀ n, Decimal.add a.number b.number = .ok n →
        Amount.add a b = .ok (.ok (Amount.new n a.commodity))) ∧
      (∀ n, Decimal.sub a.number b.number = .ok n →
        Amount.sub a b = .ok (.ok (Amount.new n a.commodity))) ∧
      (Amount.add a b).isPanic = (Decimal.add a.number b.number).isPanic ∧
      (Amount.sub a b).isPanic = (Decimal.sub a.number b.number).isPanic) := by
  refine ⟨⟨fun h => ?_, fun h => ?_⟩, ⟨fun h => ?_, fun h => ?_⟩,
    fun h => ⟨fun n hn => ?_, fun n hn => ?_, ?_, ?_⟩⟩
  · by_cases hc : a.commodity = b.commodity
    · cases hD : Decimal.add a.number b.number <;>
        simp [Amount.add, hc, hD] at h
    · exact hc
  · simp [Amount.add, h]
  · by_cases hc : a.commodity = b.commodity
    · cases hD : Decimal.sub a.number b.number <;>
        simp [Amount.sub, hc, hD] at h
    · exact hc
  · simp [Amount.sub, h]
  · simp [Amount.add, h, hn]
  · simp [Amount.sub, h, hn]
  · cases hD : Decimal.add a.number b.number <;>
      simp [Amount.add, PanicOr.isPanic, h, hD]
  · cases hD : Decimal.sub a.number b.number <;>
      simp [Amount.sub, PanicOr.isPanic, h, hD]

/-- Witness for C4 at concrete amounts `1 USD` and `2 USD` (exact
addition). -/
theorem C4_amount_mismatch_witness :
    Amount.add (Amount.new 1 ⟨"USD"⟩) (Amount.new 2 ⟨"USD"⟩) =
      .ok (.ok (Amount.new 3 ⟨"USD"⟩)) := by
  have h :=
    ((C4_amount_mismatch (Amount.new 1 ⟨"USD"⟩) (Amount.new 2 ⟨"USD"⟩)).2.2
      rfl).1 3 (by decide)
  exact h

set_option maxRecDepth 10000 in
/-- C9 (counterexample): with equal commodities, adding `1e-28 USD` to
`1e28 USD` rounds the smaller addend away entirely (the two magnitudes
cannot share one 96-bit representation), so subtracting `1e28 USD` back
yields `0 USD`, whose value differs from the original `1e-28`; and adding
`Decimal::MAX USD` to itself does not even succeed — it panics. -/
theorem C9_counterexample :
    Amount.add (Amount.new ⟨1, 28⟩ ⟨"USD"⟩)
        (Amount.new ⟨10 ^ 28, 0⟩ ⟨"USD"⟩) =
      .ok (.ok (Amount.new ⟨10 ^ 28, 0⟩ ⟨"USD"⟩)) ∧
    Amount.sub (Amount.new ⟨10 ^ 28, 0⟩ ⟨"USD"⟩)
        (Amount.new ⟨10 ^ 28, 0⟩ ⟨"USD"⟩) =
      .ok (.ok (Amount.new ⟨0, 0⟩ ⟨"USD"⟩)) ∧
    Decimal.toRat ⟨0, 0⟩ ≠ Decimal.toRat ⟨1, 28⟩ ∧
    (Amount.add (Amount.new Decimal.MAX ⟨"USD"⟩)
      (Amount.new Decimal.MAX ⟨"USD"⟩)).isPanic = true := by
  refine ⟨by decide, by decide, ?_, by decide⟩
  simp only [Decimal.toRat]
  norm_num

/-- C9 (amended): when the commodities are equal and both decimal
operations involved are exact — the addition result carries exactly the
rational value `a + b` and the subtraction result exactly its rational
difference — then `(a.add(b)).sub(b)` succeeds and its result has the value
of `a` (value equality is what `rust_decimal`'s `PartialEq` compares) and
`a`'s commodity; in general the round trip can silently round the smaller
addend away or panic on overflow (see the counterexample). -/
theorem C9_add_sub_roundtrip (a b : Amount) (h : a.commodity = b.commodity)
    (c d : Decimal)
    (hadd : Decimal.add a.number b.number = .ok c)
    (haddx : c.toRat = a.number.toRat + b.number.toRat)
    (hsub : Decimal.sub c b.number = .ok d)
    (hsubx : d.toRat = c.toRat - b.number.toRat) :
    Amount.add a b = .ok (.ok (Amount.new c a.commodity)) ∧
    Amount.sub (Amount.new c a.commodity) b =
      .ok (.ok (Amount.new d a.commodity)) ∧
    d.toRat = a.number.toRat := by
  refine ⟨?_, ?_, ?_⟩
  · simp [Amount.add, h, hadd]
  · simp [Amount.sub, Amount.new, h, hsub]
  · rw [hsubx, haddx]
    ring

/-- Witness for C9 at `1 USD` and `2 USD`, where both decimal operations
are exact. -/
theorem C9_add_sub_roundtrip_witness :
    Amount.add (Amount.new 1 ⟨"USD"⟩) (Amount.new 2 ⟨"USD"⟩) =
      .ok (.ok (Amount.new 3 ⟨"USD"⟩)) ∧
    Amount.sub (Amount.new 3 ⟨"USD"⟩) (Amount.new 2 ⟨"USD"⟩) =
      .ok (.ok (Amount.new 1 ⟨"USD"⟩)) := by
  have h := C9_add_sub_roundtrip (Amount.new 1 ⟨"USD"⟩)
    (Amount.new 2 ⟨"USD"⟩) rfl 3 1 (by decide)
    (by show Decimal.toRat ⟨3, 0⟩ = Decimal.toRat ⟨1, 0⟩ + Decimal.toRat ⟨2, 0⟩
        norm_num [Decimal.toRat])
    (by decide)
    (by show Decimal.toRat ⟨1, 0⟩ = Decimal.toRat ⟨3, 0⟩ - Decimal.toRat ⟨2, 0⟩
        norm_num [Decimal.toRat])
  exact ⟨h.1, h.2.1⟩

/-- C5 (code bug): on a string that is not one of the seven booking-method
forms, the conversion `From<String> for BookingMethod` executes
`panic!("Invalid booking method: {}", s)` — the program aborts instead of
returning a typed parse error, exactly as §9 of the specification flags. -/
theorem C5_booking_panics :
    bookingMethodFromString "FOO" =
      .panic "Invalid booking method: FOO" := by rfl

/-- C8 (counterexample): `Commodity::from_str` accepts the empty string and
a string ending in `-`, so it rejects neither the empty string nor a string
violating the terminal-character rule. -/
theorem C8_counterexample :
    Commodity.from_str "" = .ok ⟨""⟩ ∧ Commodity.from_str "A-" = .ok ⟨"A-"⟩ :=
  ⟨rfl, rfl⟩

/-- C8 (amended): `Commodity::from_str` performs no validation at all — it
returns `Ok` of the wrapped string for every input; the terminal-character
rule is enforced only by the lexer's commodity token rule. -/
theorem C8_from_str_total (s : String) :
    Commodity.from_str s = .ok ⟨s⟩ := rfl

/-! ## The transaction attachment loop (C3) -/

theorem txAttachGo_some (items : List PostingOrMetadata) (m : MetadataMap)
    (ps : List Posting) (c : Posting) :
    txAttachGo items m ps (some c) = (m, ps ++ specPostingsSeg c items) := by
  induction items generalizing ps c with
  | nil => simp [txAttachGo, specPostingsSeg]
  | cons it rest ih =>
    cases it with
    | PostingPM p => simp [txAttachGo, specPostingsSeg, ih]
    | MetadataPM k v => simp [txAttachGo, specPostingsSeg, ih]

theorem txAttachGo_none (items : List PostingOrMetadata) (m : MetadataMap)
    (ps : List Posting) :
    txAttachGo items m ps Option.none =
      ((specAttach items m).1, ps ++ (specAttach items m).2) := by
  induction items generalizing m ps with
  | nil => simp [txAttachGo, specAttach]
  | cons it rest ih =>
    cases it with
    | PostingPM p => simp [txAttachGo, specAttach, txAttachGo_some]
    | MetadataPM k v => simp [txAttachGo, specAttach, ih]

/-- C3: the flat posting/metadata sequence of a transaction is attached
exactly as the specification describes — metadata lines preceding every
posting line go into the transaction's own metadata, metadata lines after a
posting line go into the most recent posting's metadata, and the postings
vector contains exactly the posting lines in source order, the last one
included (flushed on exit).  `txAttach` is the source's fold (used by
`transactionDirectiveP`); `specAttach` is written from the spec's words. -/
theorem C3_transaction_attachment (items : List PostingOrMetadata) :
    txAttach items = specAttach items [] := by
  have h := txAttachGo_none items [] []
  simpa [txAttach] using h

/-! ## Metadata collection (C10) -/

theorem lookupMM_foldl_insert (pairs : List (String × Metadata))
    (m : MetadataMap) (k : String) :
    lookupMM (pairs.foldl (fun m p => insertMM m p.1 p.2) m) k =
      (lastValue pairs k).or (lookupMM m k) := by
  induction pairs generalizing m with
  | nil => simp [lastValue]
  | cons q rest ih =>
    rw [List.foldl_cons, ih]
    have hsplit : lastValue (q :: rest) k =
        (lastValue rest k).or (if (q.1 == k) = true then some q.2 else none) := by
      unfold lastValue
      rw [List.reverse_cons, List.find?_append]
      cases hfr : rest.reverse.find? (fun p => p.1 == k) with
      | none =>
        simp only [Option.or, List.find?_cons, List.find?_nil]
        cases hq : (q.1 == k) <;> simp [hq]
      | some w => simp [Option.or]
    rw [hsplit]
    by_cases hq : (q.1 == k) = true
    · have hqk : q.1 = k := by simpa using hq
      rw [hqk, lookupMM_insertMM_self]
      cases hl : lastValue rest k <;> simp [hq, Option.or]
    · have hne : k ≠ q.1 := fun hh => hq (by simp [hh])
      rw [lookupMM_insertMM_ne m q.1 k q.2 hne]
      cases hl : lastValue rest k <;> simp [hq, Option.or]

/-- C10: a duplicated key inside a metadata block produces no error and the
directive's metadata map binds the key to its *last* occurrence: the
`collect()` of the metadata-line pairs resolves every key to the last value
(first conjunct, fully general), and concretely a `close` directive whose
block binds `a` twice parses without error with `a` bound to the second
value. -/
theorem C10_duplicate_metadata_keys :
    (∀ pairs k, lookupMM (collectMeta pairs) k = lastValue pairs k) ∧
    parse_str "f" "2025-01-01 close Assets:A\na: \"x\"\na: \"y\"\n" =
      (some [Statement.DirectiveS (Directive.new ⟨2025, 1, 1⟩
        (.Close ⟨"Assets:A"⟩)
        [("a", .StringM "y"), ("filename", .StringM "f"),
         ("lineno", .Number 1)])], []) := by
  constructor
  · intro pairs k
    have h := lookupMM_foldl_insert pairs [] k
    have hnil : lookupMM ([] : MetadataMap) k = none := rfl
    rw [hnil] at h
    rw [collectMeta, h]
    cases lastValue pairs k <;> simp [Option.or]
  · decide

/-! ## Comments in the lexer (C6) -/

theorem takeUntilNewline_through (cs rest : List Char) (h : '\n' ∉ cs) :
    takeUntilNewline (cs ++ '\n' :: rest) = some rest := by
  induction cs with
  | nil => simp [takeUntilNewline]
  | cons c cs ih =>
    have hc : ¬(c = '\n') := fun hh => h (by simp [hh])
    have hmem : '\n' ∉ cs := fun hh => h (List.mem_cons_of_mem c hh)
    rw [List.cons_append, takeUntilNewline, if_neg hc]
    exact ih hmem

/-- C6 (counterexample): lexing `"; c\nNULL"` produces exactly one token —
`NULL` — and in particular no `Newline` token: the comment's terminating
newline is consumed with the comment rather than emitted, contradicting the
claim. -/
theorem C6_counterexample :
    (lexer (String.data "; c\nNULL")).1 = some [(Token.Null, 4, 8)] ∧
    ((lexer (String.data "; c\nNULL")).1.getD []).all
      (fun t => t.1 != Token.Newline) = true := by decide

/-- C6 (amended): the lexer's comment parser consumes the `;`-to-newline
sequence *including* the terminating newline (and any following whitespace)
as padding, producing no token at all for it; the terminating newline is NOT
emitted as a `Newline` token (the concrete conjunct shows the comment in
`"; c\nNULL"` contributes no token). -/
theorem C6_comment_swallows_newline :
    (∀ cs rest, '\n' ∉ cs →
      commentP (';' :: (cs ++ '\n' :: rest)) =
        some ((), rest.dropWhile isRustWhitespace)) ∧
    lexer (String.data "; c\nNULL") = (some [(Token.Null, 4, 8)], []) := by
  constructor
  · intro cs rest h
    unfold commentP
    have hsemi : isRustWhitespace ';' = false := by decide
    rw [List.dropWhile_cons, hsemi]
    simp only [Bool.false_eq_true, if_false]
    rw [takeUntilNewline_through cs rest h]
    rfl
  · decide

/-- Witness for the general conjunct of C6 at the comment body `" c"` and
the remainder `"NULL"`. -/
theorem C6_comment_swallows_newline_witness :
    commentP (';' :: ((String.data " c") ++ '\n' :: (String.data "NULL"))) =
      some ((), (String.data "NULL").dropWhile isRustWhitespace) :=
  C6_comment_swallows_newline.1 (String.data " c") (String.data "NULL")
    (by decide)

/-! ## Empty and trivia-only inputs (C7) -/

/-- C7 (counterexample): on the one-newline input `"\n"` — an input made of
one blank line — and on the comment-only input `"; c\n"`, `parse_str`
returns `None` (with errors), not `(Some([]), [])` as the claim states. -/
theorem C7_counterexample :
    (parse_str "f" "\n").1 = none ∧ (parse_str "f" "; c\n").1 = none := by
  decide

/-- C7 (amended): `parse_str` on the empty input returns `(Some([]), [])`
for every filename; but the comment/blank-line guarantee fails: a single
blank line yields a statement-parser failure and a comment-only input yields
a lexer failure, both returning `None`. -/
theorem C7_empty_input (f : String) :
    parse_str f "" = (some [], []) ∧
    (parse_str f "\n").1 = none ∧ (parse_str f "; c\n").1 = none := by
  refine ⟨rfl, rfl, rfl⟩

/-! ## When `parse_str` returns `None` (C2) -/

/-- C2 (counterexample): on input `"option\n"` the lexer produces a
non-empty token list, yet `parse_str` returns `None` for the statements —
`None` is not restricted to the lexer-produced-no-tokens case. -/
theorem C2_counterexample :
    (lexer (String.data "option\n")).1 =
      some [(Token.OptionT, 0, 6), (Token.Newline, 6, 7)] ∧
    (parse_str "f" "option\n").1 = none := by decide

theorem parse_str_fst (f s : String) :
    (parse_str f s).1 =
      match (lexer s.data).1 with
      | some ts => parserRun f (newlinePositions s.data) s.length ts
      | none => none := by
  simp only [parse_str]
  cases hl : lexer s.data with
  | mk topt lexErrs =>
    cases topt with
    | none => rfl
    | some ts =>
      cases hp : parserRun f (newlinePositions s.data) s.length ts with
      | none => simp [hp]
      | some stmts => simp [hp]

/-- C2 (amended): `parse_str` returns `None` exactly when the lexer failed
*or* the statement parser failed on the token stream; since the statement
parser has no recovery, any statement-level error suppresses all output —
concretely, `"option \"a\" \"b\"\noption\n"` returns `None` even though its
first statement alone parses to `Some([Option("a","b")])` with no errors. -/
theorem C2_none_conditions :
    (∀ f s, (parse_str f s).1 = none ↔
      ((lexer s.data).1 = none ∨
       ∃ ts, (lexer s.data).1 = some ts ∧
         parserRun f (newlinePositions s.data) s.length ts = none)) ∧
    (parse_str "f" "option \"a\" \"b\"\noption\n").1 = none ∧
    parse_str "f" "option \"a\" \"b\"\n" =
      (some [Statement.OptionS "a" "b"], []) := by
  refine ⟨fun f s => ?_, by decide, by decide⟩
  rw [parse_str_fst]
  cases hlex : (lexer s.data).1 with
  | none => simp
  | some ts => simp

/-- Witness for the general conjunct of C2 at `"option\n"`: the equivalence
transports the concrete parser-stage failure to the `None` result. -/
theorem C2_none_conditions_witness :
    (parse_str "f" "option\n").1 = none :=
  (C2_none_conditions.1 "f" "option\n").mpr
    (Or.inr ⟨[(Token.OptionT, 0, 6), (Token.Newline, 6, 7)],
      by decide, by decide⟩)

/-! ## Consumption lemmas

Every parser reachable from `statement` only ever removes tokens from the
front of its input, so each successful parse starts at an actual suffix of
the lexer's token stream.  These lemmas let the provenance theorem tie the
injected line number to the directive's own parse-start offset. -/

theorem tjust_consuming (t : Token) : Consuming (tjust t) := by
  intro s a r h
  unfold tjust at h
  split at h
  · split at h
    · simp only [Option.some_inj, Prod.mk.injEq] at h
      rw [← h.2]
      exact List.suffix_cons _ _
    · exact absurd h (by simp)
  · exact absurd h (by simp)

theorem tend_consuming : Consuming tend := by
  intro s a r h
  unfold tend at h
  split at h
  · simp only [Option.some_inj, Prod.mk.injEq] at h
    rw [← h.2]
  · exact absurd h (by simp)

theorem end_of_line_consuming : Consuming end_of_line := by
  intro s a r h
  unfold end_of_line at h
  split at h
  · rename_i q heq
    rw [Option.some_inj] at h
    rw [h] at heq
    exact tjust_consuming _ _ _ _ heq
  · exact tend_consuming _ _ _ h

theorem torNot_consuming {α : Type} {p : TP α} (hp : Consuming p) :
    Consuming (torNot p) := by
  intro s a r h
  unfold torNot at h
  split at h
  · simp only [Option.some_inj, Prod.mk.injEq] at h
    rw [← h.2]
    exact hp _ _ _ (by assumption)
  · simp only [Option.some_inj, Prod.mk.injEq] at h
    rw [← h.2]

theorem tmanyGo_consuming {α : Type} {p : TP α} (hp : Consuming p) :
    ∀ fuel s, (tmanyGo p fuel s).2 <:+ s := by
  intro fuel
  induction fuel with
  | zero => intro s; exact List.suffix_rfl
  | succ n ih =>
    intro s
    cases heq : p s with
    | none =>
      have he : tmanyGo p (n + 1) s = ([], s) := by rw [tmanyGo, heq]
      rw [he]
    | some q =>
      obtain ⟨x, s1⟩ := q
      cases hgo : tmanyGo p n s1 with
      | mk xs s2 =>
        have he : tmanyGo p (n + 1) s = (x :: xs, s2) := by
          simp only [tmanyGo, heq, hgo]
        rw [he]
        have h2 := ih s1
        rw [hgo] at h2
        exact h2.trans (hp s x s1 heq)

theorem tmany_consuming {α : Type} {p : TP α} (hp : Consuming p) :
    Consuming (tmany p) := by
  intro s a r h
  unfold tmany at h
  rw [Option.some_inj] at h
  have h2 := tmanyGo_consuming hp (s.length + 1) s
  rw [h] at h2
  exact h2

theorem tstring_consuming : Consuming tstring := by
  intro s a r h
  unfold tstring at h
  split at h
  · simp only [Option.some_inj, Prod.mk.injEq] at h
    rw [← h.2]
    exact List.suffix_cons _ _
  · exact absurd h (by simp)

theorem tdate_consuming : Consuming tdate := by
  intro s a r h
  unfold tdate at h
  split at h
  · simp only [Option.some_inj, Prod.mk.injEq] at h
    rw [← h.2]
    exact List.suffix_cons _ _
  · exact absurd h (by simp)

theorem taccount_consuming : Consuming taccount := by
  intro s a r h
  unfold taccount at h
  split at h
  · simp only [Option.some_inj, Prod.mk.injEq] at h
    rw [← h.2]
    exact List.suffix_cons _ _
  · exact absurd h (by simp)

theorem tcommodity_consuming : Consuming tcommodity := by
  intro s a r h
  unfold tcommodity at h
  split at h
  · simp only [Option.some_inj, Prod.mk.injEq] at h
    rw [← h.2]
    exact List.suffix_cons _ _
  · exact absurd h (by simp)

theorem ttag_consuming : Consuming ttag := by
  intro s a r h
  unfold ttag at h
  split at h
  · simp only [Option.some_inj, Prod.mk.injEq] at h
    rw [← h.2]
    exact List.suffix_cons _ _
  · exact absurd h (by simp)

theorem tbool_consuming : Consuming tbool := by
  intro s a r h
  unfold tbool at h
  split at h
  · simp only [Option.some_inj, Prod.mk.injEq] at h
    rw [← h.2]
    exact List.suffix_cons _ _
  · exact absurd h (by simp)

theorem tkey_consuming : Consuming tkey := by
  intro s a r h
  unfold tkey at h
  split at h
  · simp only [Option.some_inj, Prod.mk.injEq] at h
    rw [← h.2]
    exact List.suffix_cons _ _
  · exact absurd h (by simp)

theorem tcapital_consuming : Consuming tcapital := by
  intro s a r h
  unfold tcapital at h
  split at h
  · simp only [Option.some_inj, Prod.mk.injEq] at h
    rw [← h.2]
    exact List.suffix_cons _ _
  · exact absurd h (by simp)

theorem exprAtomF_consuming {rec : TP Decimal} (hrec : Consuming rec) :
    Consuming (exprAtomF rec) := by
  intro s a r h
  unfold exprAtomF at h
  repeat' split at h
  all_goals first
    | exact Option.noConfusion h
    | (simp only [Option.some_inj, Prod.mk.injEq] at h
       rw [← h.2]
       first
         | exact List.suffix_cons _ _
         | exact ((List.suffix_cons _ _).trans
             (hrec _ _ _ (by assumption))).trans (List.suffix_cons _ _))

theorem exprUnaryF_consuming {rec : TP Decimal} (hrec : Consuming rec) :
    Consuming (exprUnaryF rec) := by
  intro s a r h
  unfold exprUnaryF at h
  split at h
  · simp only [Option.some_inj, Prod.mk.injEq] at h
    rw [← h.2]
    exact (exprAtomF_consuming hrec _ _ _ (by assumption)).trans
      (List.dropWhile_suffix _)
  · exact absurd h (by simp)

theorem exprProdTailF_consuming {rec : TP Decimal} (hrec : Consuming rec) :
    Consuming (exprProdTailF rec) := by
  intro s a r h
  unfold exprProdTailF at h
  repeat' split at h
  all_goals first
    | exact Option.noConfusion h
    | (simp only [Option.some_inj, Prod.mk.injEq] at h
       rw [← h.2]
       exact (exprUnaryF_consuming hrec _ _ _ (by assumption)).trans
         (List.suffix_cons _ _))

theorem exprProductF_consuming {rec : TP Decimal} (hrec : Consuming rec) :
    Consuming (exprProductF rec) := by
  intro s a r h
  unfold exprProductF at h
  split at h
  · rename_i v s1 heq1
    cases hgo : tmanyGo (exprProdTailF rec) (s1.length + 1) s1 with
    | mk tl s2 =>
      rw [hgo] at h
      simp only at h
      split at h
      · simp only [Option.some_inj, Prod.mk.injEq] at h
        rw [← h.2]
        have h2 := tmanyGo_consuming (exprProdTailF_consuming hrec)
          (s1.length + 1) s1
        rw [hgo] at h2
        exact h2.trans (exprUnaryF_consuming hrec _ _ _ heq1)
      · exact absurd h (by simp)
  · exact absurd h (by simp)

theorem exprSumTailF_consuming {rec : TP Decimal} (hrec : Consuming rec) :
    Consuming (exprSumTailF rec) := by
  intro s a r h
  unfold exprSumTailF at h
  repeat' split at h
  all_goals first
    | exact Option.noConfusion h
    | (simp only [Option.some_inj, Prod.mk.injEq] at h
       rw [← h.2]
       exact (exprProductF_consuming hrec _ _ _ (by assumption)).trans
         (List.suffix_cons _ _))

theorem exprSumF_consuming {rec : TP Decimal} (hrec : Consuming rec) :
    Consuming (exprSumF rec) := by
  intro s a r h
  unfold exprSumF at h
  split at h
  · rename_i v s1 heq1
    cases hgo : tmanyGo (exprSumTailF rec) (s1.length + 1) s1 with
    | mk tl s2 =>
      rw [hgo] at h
      simp only at h
      split at h
      · simp only [Option.some_inj, Prod.mk.injEq] at h
        rw [← h.2]
        have h2 := tmanyGo_consuming (exprSumTailF_consuming hrec)
          (s1.length + 1) s1
        rw [hgo] at h2
        exact h2.trans (exprProductF_consuming hrec _ _ _ heq1)
      · exact absurd h (by simp)
  · exact absurd h (by simp)

theorem exprGo_consuming : ∀ fuel, Consuming (exprGo fuel) := by
  intro fuel
  induction fuel with
  | zero =>
    intro s a r h
    exact absurd h (by simp [exprGo])
  | succ n ih =>
    intro s a r h
    exact exprSumF_consuming ih s a r h

theorem exprP_consuming : Consuming exprP := fun s a r h =>
  exprGo_consuming (s.length + 1) s a r h

theorem commodityTailP_consuming : Consuming commodityTailP := by
  intro s a r h
  unfold commodityTailP at h
  split at h
  · exact (tcommodity_consuming _ _ _ h).trans
      (tjust_consuming _ _ _ _ (by assumption))
  · exact absurd h (by simp)

theorem commodityListP_consuming : Consuming commodityListP := by
  intro s a r h
  unfold commodityListP at h
  split at h
  · simp only [Option.some_inj, Prod.mk.injEq] at h
    rw [← h.2]
  · rename_i c s1 heq1
    cases hgo : tmanyGo commodityTailP (s1.length + 1) s1 with
    | mk cs s2 =>
      rw [hgo] at h
      simp only at h
      simp only [Option.some_inj, Prod.mk.injEq] at h
      rw [← h.2]
      have h2 := tmanyGo_consuming commodityTailP_consuming
        (s1.length + 1) s1
      rw [hgo] at h2
      exact h2.trans (tcommodity_consuming _ _ _ heq1)

theorem amountP_consuming : Consuming amountP := by
  intro s a r h
  unfold amountP at h
  simp only [Option.pure_def, Option.bind_eq_bind, Option.bind_eq_some] at h
  obtain ⟨⟨x1, s1⟩, h1, h⟩ := h
  obtain ⟨⟨x2, s2⟩, h2, h⟩ := h
  simp only [Option.some_inj, Prod.mk.injEq] at h
  rw [← h.2]
  exact (tcommodity_consuming _ _ _ h2).trans (exprP_consuming _ _ _ h1)

theorem amountToleranceP_consuming : Consuming amountToleranceP := by
  intro s a r h
  unfold amountToleranceP at h
  split at h
  · simp only [Option.some_inj, Prod.mk.injEq] at h
    rw [← h.2]
    exact amountP_consuming _ _ _ (by assumption)
  · simp only [Option.pure_def, Option.bind_eq_bind, Option.bind_eq_some] at h
    obtain ⟨⟨x1, s1⟩, h1, h⟩ := h
    obtain ⟨⟨x2, s2⟩, h2, h⟩ := h
    obtain ⟨⟨x3, s3⟩, h3, h⟩ := h
    obtain ⟨⟨x4, s4⟩, h4, h⟩ := h
    simp only [Option.some_inj, Prod.mk.injEq] at h
    rw [← h.2]
    exact (((tcommodity_consuming _ _ _ h4).trans
      (exprP_consuming _ _ _ h3)).trans
      (tjust_consuming _ _ _ _ h2)).trans
      (exprP_consuming _ _ _ h1)

theorem metadataValueP_consuming : Consuming metadataValueP := by
  intro s a r h
  unfold metadataValueP at h
  repeat' split at h
  all_goals first
    | exact Option.noConfusion h
    | (simp only [Option.some_inj, Prod.mk.injEq] at h
       rw [← h.2]
       first
         | exact tstring_consuming _ _ _ (by assumption)
         | exact taccount_consuming _ _ _ (by assumption)
         | exact tdate_consuming _ _ _ (by assumption)
         | exact tcommodity_consuming _ _ _ (by assumption)
         | exact ttag_consuming _ _ _ (by assumption)
         | exact tbool_consuming _ _ _ (by assumption)
         | exact tjust_consuming _ _ _ _ (by assumption)
         | exact amountP_consuming _ _ _ (by assumption)
         | exact exprP_consuming _ _ _ (by assumption))

theorem metadataLineP_consuming : Consuming metadataLineP := by
  intro s a r h
  unfold metadataLineP at h
  simp only [Option.pure_def, Option.bind_eq_bind, Option.bind_eq_some] at h
  obtain ⟨⟨x1, s1⟩, h1, h⟩ := h
  obtain ⟨⟨x2, s2⟩, h2, h⟩ := h
  obtain ⟨⟨x3, s3⟩, h3, h⟩ := h
  simp only [Option.some_inj, Prod.mk.injEq] at h
  rw [← h.2]
  exact ((end_of_line_consuming _ _ _ h3).trans
    (metadataValueP_consuming _ _ _ h2)).trans
    (tkey_consuming _ _ _ h1)

theorem metadataP_consuming : Consuming metadataP := by
  intro s a r h
  unfold metadataP at h
  rw [Option.map_eq_some'] at h
  obtain ⟨⟨pairs, r0⟩, h1, h2⟩ := h
  simp only [Prod.mk.injEq] at h2
  rw [← h2.2]
  exact tmany_consuming metadataLineP_consuming _ _ _ h1

theorem tagLinkItemP_consuming : Consuming tagLinkItemP := by
  intro s a r h
  unfold tagLinkItemP at h
  split at h
  · simp only [Option.some_inj, Prod.mk.injEq] at h
    rw [← h.2]
    exact List.suffix_cons _ _
  · simp only [Option.some_inj, Prod.mk.injEq] at h
    rw [← h.2]
    exact List.suffix_cons _ _
  · exact absurd h (by simp)

theorem tagsLinksP_consuming : Consuming tagsLinksP := by
  intro s a r h
  unfold tagsLinksP at h
  rw [Option.map_eq_some'] at h
  obtain ⟨⟨items, r0⟩, h1, h2⟩ := h
  simp only [Prod.mk.injEq] at h2
  rw [← h2.2]
  exact tmany_consuming tagLinkItemP_consuming _ _ _ h1

theorem flagP_consuming : Consuming flagP := by
  intro s a r h
  unfold flagP at h
  repeat' split at h
  all_goals first
    | exact tcapital_consuming _ _ _ h
    | (simp only [Option.some_inj, Prod.mk.injEq] at h
       rw [← h.2]
       exact tjust_consuming _ _ _ _ (by assumption))

theorem postingP_consuming : Consuming postingP := by
  intro s a r h
  unfold postingP at h
  simp only [Option.pure_def, Option.bind_eq_bind, Option.bind_eq_some] at h
  obtain ⟨⟨x1, s1⟩, h1, h⟩ := h
  obtain ⟨⟨x2, s2⟩, h2, h⟩ := h
  obtain ⟨⟨x3, s3⟩, h3, h⟩ := h
  simp only [Option.some_inj, Prod.mk.injEq] at h
  rw [← h.2]
  exact ((end_of_line_consuming _ _ _ h3).trans
    (taccount_consuming _ _ _ h2)).trans
    (torNot_consuming flagP_consuming _ _ _ h1)

theorem postingOrMetadataP_consuming : Consuming postingOrMetadataP := by
  intro s a r h
  unfold postingOrMetadataP at h
  repeat' split at h
  all_goals first
    | exact Option.noConfusion h
    | (simp only [Option.some_inj, Prod.mk.injEq] at h
       rw [← h.2]
       first
         | exact postingP_consuming _ _ _ (by assumption)
         | exact metadataLineP_consuming _ _ _ (by assumption))

theorem transactionDirectiveP_consuming : Consuming transactionDirectiveP := by
  intro s a r h
  unfold transactionDirectiveP at h
  simp only [Option.pure_def, Option.bind_eq_bind, Option.bind_eq_some] at h
  obtain ⟨⟨x1, s1⟩, h1, h⟩ := h
  obtain ⟨⟨x2, s2⟩, h2, h⟩ := h
  obtain ⟨⟨x3, s3⟩, h3, h⟩ := h
  obtain ⟨⟨x4, s4⟩, h4, h⟩ := h
  obtain ⟨⟨x5, s5⟩, h5, h⟩ := h
  obtain ⟨⟨x6, s6⟩, h6, h⟩ := h
  split at h <;>
    (simp only [Option.some_inj, Prod.mk.injEq] at h
     rw [← h.2]
     exact (((((tmany_consuming postingOrMetadataP_consuming _ _ _ h6).trans
       (end_of_line_consuming _ _ _ h5)).trans
       (torNot_consuming tstring_consuming _ _ _ h4)).trans
       (torNot_consuming tstring_consuming _ _ _ h3)).trans
       (flagP_consuming _ _ _ h2)).trans
       (tdate_consuming _ _ _ h1))

theorem openDirectiveP_consuming : Consuming openDirectiveP := by
  intro s a r h
  unfold openDirectiveP at h
  simp only [Option.pure_def, Option.bind_eq_bind, Option.bind_eq_some] at h
  obtain ⟨⟨x1, s1⟩, h1, h⟩ := h
  obtain ⟨⟨x2, s2⟩, h2, h⟩ := h
  obtain ⟨⟨x3, s3⟩, h3, h⟩ := h
  obtain ⟨⟨x4, s4⟩, h4, h⟩ := h
  obtain ⟨⟨x5, s5⟩, h5, h⟩ := h
  obtain ⟨⟨x6, s6⟩, h6, h⟩ := h
  obtain ⟨⟨x7, s7⟩, h7, h⟩ := h
  simp only [Option.some_inj, Prod.mk.injEq] at h
  rw [← h.2]
  exact ((((((torNot_consuming metadataP_consuming _ _ _ h7).trans
    (end_of_line_consuming _ _ _ h6)).trans
    (torNot_consuming tstring_consuming _ _ _ h5)).trans
    (commodityListP_consuming _ _ _ h4)).trans
    (taccount_consuming _ _ _ h3)).trans
    (tjust_consuming _ _ _ _ h2)).trans
    (tdate_consuming _ _ _ h1)

theorem closeDirectiveP_consuming : Consuming closeDirectiveP := by
  intro s a r h
  unfold closeDirectiveP at h
  simp only [Option.pure_def, Option.bind_eq_bind, Option.bind_eq_some] at h
  obtain ⟨⟨x1, s1⟩, h1, h⟩ := h
  obtain ⟨⟨x2, s2⟩, h2, h⟩ := h
  obtain ⟨⟨x3, s3⟩, h3, h⟩ := h
  obtain ⟨⟨x4, s4⟩, h4, h⟩ := h
  obtain ⟨⟨x5, s5⟩, h5, h⟩ := h
  simp only [Option.some_inj, Prod.mk.injEq] at h
  rw [← h.2]
  exact ((((torNot_consuming metadataP_consuming _ _ _ h5).trans
    (end_of_line_consuming _ _ _ h4)).trans
    (taccount_consuming _ _ _ h3)).trans
    (tjust_consuming _ _ _ _ h2)).trans
    (tdate_consuming _ _ _ h1)

theorem commodityDirectiveP_consuming : Consuming commodityDirectiveP := by
  intro s a r h
  unfold commodityDirectiveP at h
  simp only [Option.pure_def, Option.bind_eq_bind, Option.bind_eq_some] at h
  obtain ⟨⟨x1, s1⟩, h1, h⟩ := h
  obtain ⟨⟨x2, s2⟩, h2, h⟩ := h
  obtain ⟨⟨x3, s3⟩, h3, h⟩ := h
  obtain ⟨⟨x4, s4⟩, h4, h⟩ := h
  obtain ⟨⟨x5, s5⟩, h5, h⟩ := h
  simp only [Option.some_inj, Prod.mk.injEq] at h
  rw [← h.2]
  exact ((((torNot_consuming metadataP_consuming _ _ _ h5).trans
    (end_of_line_consuming _ _ _ h4)).trans
    (tcommodity_consuming _ _ _ h3)).trans
    (tjust_consuming _ _ _ _ h2)).trans
    (tdate_consuming _ _ _ h1)

theorem padDirectiveP_consuming : Consuming padDirectiveP := by
  intro s a r h
  unfold padDirectiveP at h
  simp only [Option.pure_def, Option.bind_eq_bind, Option.bind_eq_some] at h
  obtain ⟨⟨x1, s1⟩, h1, h⟩ := h
  obtain ⟨⟨x2, s2⟩, h2, h⟩ := h
  obtain ⟨⟨x3, s3⟩, h3, h⟩ := h
  obtain ⟨⟨x4, s4⟩, h4, h⟩ := h
  obtain ⟨⟨x5, s5⟩, h5, h⟩ := h
  obtain ⟨⟨x6, s6⟩, h6, h⟩ := h
  simp only [Option.some_inj, Prod.mk.injEq] at h
  rw [← h.2]
  exact (((((torNot_consuming metadataP_consuming _ _ _ h6).trans
    (end_of_line_consuming _ _ _ h5)).trans
    (taccount_consuming _ _ _ h4)).trans
    (taccount_consuming _ _ _ h3)).trans
    (tjust_consuming _ _ _ _ h2)).trans
    (tdate_consuming _ _ _ h1)

theorem balanceDirectiveP_consuming : Consuming balanceDirectiveP := by
  intro s a r h
  unfold balanceDirectiveP at h
  simp only [Option.pure_def, Option.bind_eq_bind, Option.bind_eq_some] at h
  obtain ⟨⟨x1, s1⟩, h1, h⟩ := h
  obtain ⟨⟨x2, s2⟩, h2, h⟩ := h
  obtain ⟨⟨x3, s3⟩, h3, h⟩ := h
  obtain ⟨⟨x4, s4⟩, h4, h⟩ := h
  obtain ⟨⟨x5, s5⟩, h5, h⟩ := h
  obtain ⟨⟨x6, s6⟩, h6, h⟩ := h
  simp only [Option.some_inj, Prod.mk.injEq] at h
  rw [← h.2]
  exact (((((torNot_consuming metadataP_consuming _ _ _ h6).trans
    (end_of_line_consuming _ _ _ h5)).trans
    (amountToleranceP_consuming _ _ _ h4)).trans
    (taccount_consuming _ _ _ h3)).trans
    (tjust_consuming _ _ _ _ h2)).trans
    (tdate_consuming _ _ _ h1)

theorem noteDirectiveP_consuming : Consuming noteDirectiveP := by
  intro s a r h
  unfold noteDirectiveP at h
  simp only [Option.pure_def, Option.bind_eq_bind, Option.bind_eq_some] at h
  obtain ⟨⟨x1, s1⟩, h1, h⟩ := h
  obtain ⟨⟨x2, s2⟩, h2, h⟩ := h
  obtain ⟨⟨x3, s3⟩, h3, h⟩ := h
  obtain ⟨⟨x4, s4⟩, h4, h⟩ := h
  obtain ⟨⟨x5, s5⟩, h5, h⟩ := h
  obtain ⟨⟨x6, s6⟩, h6, h⟩ := h
  obtain ⟨⟨x7, s7⟩, h7, h⟩ := h
  simp only [Option.some_inj, Prod.mk.injEq] at h
  rw [← h.2]
  exact ((((((torNot_consuming metadataP_consuming _ _ _ h7).trans
    (end_of_line_consuming _ _ _ h6)).trans
    (tagsLinksP_consuming _ _ _ h5)).trans
    (tstring_consuming _ _ _ h4)).trans
    (taccount_consuming _ _ _ h3)).trans
    (tjust_consuming _ _ _ _ h2)).trans
    (tdate_consuming _ _ _ h1)

theorem eventDirectiveP_consuming : Consuming eventDirectiveP := by
  intro s a r h
  unfold eventDirectiveP at h
  simp only [Option.pure_def, Option.bind_eq_bind, Option.bind_eq_some] at h
  obtain ⟨⟨x1, s1⟩, h1, h⟩ := h
  obtain ⟨⟨x2, s2⟩, h2, h⟩ := h
  obtain ⟨⟨x3, s3⟩, h3, h⟩ := h
  obtain ⟨⟨x4, s4⟩, h4, h⟩ := h
  obtain ⟨⟨x5, s5⟩, h5, h⟩ := h
  obtain ⟨⟨x6, s6⟩, h6, h⟩ := h
  simp only [Option.some_inj, Prod.mk.injEq] at h
  rw [← h.2]
  exact (((((torNot_consuming metadataP_consuming _ _ _ h6).trans
    (end_of_line_consuming _ _ _ h5)).trans
    (tstring_consuming _ _ _ h4)).trans
    (tstring_consuming _ _ _ h3)).trans
    (tjust_consuming _ _ _ _ h2)).trans
    (tdate_consuming _ _ _ h1)

theorem queryDirectiveP_consuming : Consuming queryDirectiveP := by
  intro s a r h
  unfold queryDirectiveP at h
  simp only [Option.pure_def, Option.bind_eq_bind, Option.bind_eq_some] at h
  obtain ⟨⟨x1, s1⟩, h1, h⟩ := h
  obtain ⟨⟨x2, s2⟩, h2, h⟩ := h
  obtain ⟨⟨x3, s3⟩, h3, h⟩ := h
  obtain ⟨⟨x4, s4⟩, h4, h⟩ := h
  obtain ⟨⟨x5, s5⟩, h5, h⟩ := h
  obtain ⟨⟨x6, s6⟩, h6, h⟩ := h
  simp only [Option.some_inj, Prod.mk.injEq] at h
  rw [← h.2]
  exact (((((torNot_consuming metadataP_consuming _ _ _ h6).trans
    (end_of_line_consuming _ _ _ h5)).trans
    (tstring_consuming _ _ _ h4)).trans
    (tstring_consuming _ _ _ h3)).trans
    (tjust_consuming _ _ _ _ h2)).trans
    (tdate_consuming _ _ _ h1)

theorem priceDirectiveP_consuming : Consuming priceDirectiveP := by
  intro s a r h
  unfold priceDirectiveP at h
  simp only [Option.pure_def, Option.bind_eq_bind, Option.bind_eq_some] at h
  obtain ⟨⟨x1, s1⟩, h1, h⟩ := h
  obtain ⟨⟨x2, s2⟩, h2, h⟩ := h
  obtain ⟨⟨x3, s3⟩, h3, h⟩ := h
  obtain ⟨⟨x4, s4⟩, h4, h⟩ := h
  obtain ⟨⟨x5, s5⟩, h5, h⟩ := h
  obtain ⟨⟨x6, s6⟩, h6, h⟩ := h
  simp only [Option.some_inj, Prod.mk.injEq] at h
  rw [← h.2]
  exact (((((torNot_consuming metadataP_consuming _ _ _ h6).trans
    (end_of_line_consuming _ _ _ h5)).trans
    (amountP_consuming _ _ _ h4)).trans
    (tcommodity_consuming _ _ _ h3)).trans
    (tjust_consuming _ _ _ _ h2)).trans
    (tdate_consuming _ _ _ h1)

theorem documentDirectiveP_consuming : Consuming documentDirectiveP := by
  intro s a r h
  unfold documentDirectiveP at h
  simp only [Option.pure_def, Option.bind_eq_bind, Option.bind_eq_some] at h
  obtain ⟨⟨x1, s1⟩, h1, h⟩ := h
  obtain ⟨⟨x2, s2⟩, h2, h⟩ := h
  obtain ⟨⟨x3, s3⟩, h3, h⟩ := h
  obtain ⟨⟨x4, s4⟩, h4, h⟩ := h
  obtain ⟨⟨x5, s5⟩, h5, h⟩ := h
  obtain ⟨⟨x6, s6⟩, h6, h⟩ := h
  obtain ⟨⟨x7, s7⟩, h7, h⟩ := h
  simp only [Option.some_inj, Prod.mk.injEq] at h
  rw [← h.2]
  exact ((((((torNot_consuming metadataP_consuming _ _ _ h7).trans
    (end_of_line_consuming _ _ _ h6)).trans
    (tagsLinksP_consuming _ _ _ h5)).trans
    (tstring_consuming _ _ _ h4)).trans
    (taccount_consuming _ _ _ h3)).trans
    (tjust_consuming _ _ _ _ h2)).trans
    (tdate_consuming _ _ _ h1)

theorem customDirectiveP_consuming : Consuming customDirectiveP := by
  intro s a r h
  unfold customDirectiveP at h
  simp only [Option.pure_def, Option.bind_eq_bind, Option.bind_eq_some] at h
  obtain ⟨⟨x1, s1⟩, h1, h⟩ := h
  obtain ⟨⟨x2, s2⟩, h2, h⟩ := h
  obtain ⟨⟨x3, s3⟩, h3, h⟩ := h
  obtain ⟨⟨x4, s4⟩, h4, h⟩ := h
  obtain ⟨⟨x5, s5⟩, h5, h⟩ := h
  obtain ⟨⟨x6, s6⟩, h6, h⟩ := h
  simp only [Option.some_inj, Prod.mk.injEq] at h
  rw [← h.2]
  exact (((((torNot_consuming metadataP_consuming _ _ _ h6).trans
    (end_of_line_consuming _ _ _ h5)).trans
    (tmany_consuming metadataValueP_consuming _ _ _ h4)).trans
    (tstring_consuming _ _ _ h3)).trans
    (tjust_consuming _ _ _ _ h2)).trans
    (tdate_consuming _ _ _ h1)

set_option maxHeartbeats 1600000 in
theorem directiveChoiceP_consuming : Consuming directiveChoiceP := by
  intro s a r h
  unfold directiveChoiceP at h
  repeat' split at h
  all_goals first
    | exact customDirectiveP_consuming _ _ _ h
    | (rw [Option.some_inj] at h
       subst h
       first
         | exact openDirectiveP_consuming _ _ _ (by assumption)
         | exact closeDirectiveP_consuming _ _ _ (by assumption)
         | exact commodityDirectiveP_consuming _ _ _ (by assumption)
         | exact padDirectiveP_consuming _ _ _ (by assumption)
         | exact balanceDirectiveP_consuming _ _ _ (by assumption)
         | exact transactionDirectiveP_consuming _ _ _ (by assumption)
         | exact noteDirectiveP_consuming _ _ _ (by assumption)
         | exact eventDirectiveP_consuming _ _ _ (by assumption)
         | exact queryDirectiveP_consuming _ _ _ (by assumption)
         | exact priceDirectiveP_consuming _ _ _ (by assumption)
         | exact documentDirectiveP_consuming _ _ _ (by assumption))

theorem directiveP_consuming (f : String) (nls : List Nat) (L : Nat) :
    Consuming (directiveP f nls L) := by
  intro s a r h
  unfold directiveP at h
  rw [Option.map_eq_some'] at h
  obtain ⟨⟨st0, r0⟩, h1, h2⟩ := h
  simp only [Prod.mk.injEq] at h2
  rw [← h2.2]
  exact directiveChoiceP_consuming _ _ _ h1

theorem optionStatementP_consuming : Consuming optionStatementP := by
  intro s a r h
  unfold optionStatementP at h
  repeat' split at h
  all_goals first
    | exact Option.noConfusion h
    | (simp only [Option.some_inj, Prod.mk.injEq] at h
       rw [← h.2]
       exact (((end_of_line_consuming _ _ _ (by assumption)).trans
         (tstring_consuming _ _ _ (by assumption))).trans
         (tstring_consuming _ _ _ (by assumption))).trans
         (tjust_consuming _ _ _ _ (by assumption)))

theorem pluginStatementP_consuming : Consuming pluginStatementP := by
  intro s a r h
  unfold pluginStatementP at h
  repeat' split at h
  all_goals first
    | exact Option.noConfusion h
    | (simp only [Option.some_inj, Prod.mk.injEq] at h
       rw [← h.2]
       exact (((end_of_line_consuming _ _ _ (by assumption)).trans
         (torNot_consuming tstring_consuming _ _ _ (by assumption))).trans
         (tstring_consuming _ _ _ (by assumption))).trans
         (tjust_consuming _ _ _ _ (by assumption)))

theorem includeStatementP_consuming : Consuming includeStatementP := by
  intro s a r h
  unfold includeStatementP at h
  repeat' split at h
  all_goals first
    | exact Option.noConfusion h
    | (simp only [Option.some_inj, Prod.mk.injEq] at h
       rw [← h.2]
       exact ((end_of_line_consuming _ _ _ (by assumption)).trans
         (tstring_consuming _ _ _ (by assumption))).trans
         (tjust_consuming _ _ _ _ (by assumption)))

theorem statementP_consuming (f : String) (nls : List Nat) (L : Nat) :
    Consuming (statementP f nls L) := by
  intro s a r h
  unfold statementP at h
  repeat' split at h
  all_goals first
    | exact directiveP_consuming f nls L _ _ _ h
    | (rw [Option.some_inj] at h
       subst h
       first
         | exact optionStatementP_consuming _ _ _ (by assumption)
         | exact pluginStatementP_consuming _ _ _ (by assumption)
         | exact includeStatementP_consuming _ _ _ (by assumption))

/-! ## Provenance metadata injection (C1) -/

theorem injectMeta_lookups (f : String) (nls : List Nat) (o : Nat)
    (d : Directive) :
    lookupMM (injectMeta f nls o d).meta "filename" =
      some (.StringM f) ∧
    lookupMM (injectMeta f nls o d).meta "lineno" =
      some (.Number (lineLookup nls o)) := by
  unfold injectMeta Directive.new
  constructor
  · rw [lookupMM_insertMM_ne _ _ _ _ (by decide)]
    exact lookupMM_insertMM_self _ _ _
  · exact lookupMM_insertMM_self _ _ _

theorem optionStatementP_not_directive (s : TS) (p : Statement × TS)
    (h : optionStatementP s = some p) :
    ∀ d, p.1 ≠ Statement.DirectiveS d := by
  unfold optionStatementP at h
  repeat' split at h
  all_goals
    first
      | (simp_all
         done)
      | (intro d hd
         rw [Option.some_inj] at h
         rw [← h] at hd
         simp at hd)

theorem pluginStatementP_not_directive (s : TS) (p : Statement × TS)
    (h : pluginStatementP s = some p) :
    ∀ d, p.1 ≠ Statement.DirectiveS d := by
  unfold pluginStatementP at h
  repeat' split at h
  all_goals
    first
      | (simp_all
         done)
      | (intro d hd
         rw [Option.some_inj] at h
         rw [← h] at hd
         simp at hd)

theorem includeStatementP_not_directive (s : TS) (p : Statement × TS)
    (h : includeStatementP s = some p) :
    ∀ d, p.1 ≠ Statement.DirectiveS d := by
  unfold includeStatementP at h
  repeat' split at h
  all_goals
    first
      | (simp_all
         done)
      | (intro d hd
         rw [Option.some_inj] at h
         rw [← h] at hd
         simp at hd)

theorem statementP_directive (f : String) (nls : List Nat) (L : Nat)
    (s : TS) (d : Directive) (r : TS)
    (h : statementP f nls L s = some (Statement.DirectiveS d, r)) :
    lookupMM d.meta "filename" = some (.StringM f) ∧
    lookupMM d.meta "lineno" =
      some (.Number (lineLookup nls (spanStartOf L s))) := by
  unfold statementP at h
  split at h
  case _ p heq =>
    rw [Option.some_inj] at h
    exact absurd (congrArg Prod.fst h)
      (optionStatementP_not_directive s p heq d)
  case _ =>
    split at h
    case _ p heq =>
      rw [Option.some_inj] at h
      exact absurd (congrArg Prod.fst h)
        (pluginStatementP_not_directive s p heq d)
    case _ =>
      split at h
      case _ p heq =>
        rw [Option.some_inj] at h
        exact absurd (congrArg Prod.fst h)
          (includeStatementP_not_directive s p heq d)
      case _ =>
        unfold directiveP at h
        rw [Option.map_eq_some'] at h
        obtain ⟨⟨st0, r0⟩, _, hmap⟩ := h
        rw [Prod.mk.injEq] at hmap
        obtain ⟨hst, _⟩ := hmap
        cases st0 with
        | DirectiveS d0 =>
          unfold injectStatement at hst
          rw [Statement.DirectiveS.injEq] at hst
          rw [← hst]
          exact injectMeta_lookups f nls (spanStartOf L s) d0
        | OptionS k v => exact absurd hst (by simp [injectStatement])
        | Plugin n a => exact absurd hst (by simp [injectStatement])
        | Include p => exact absurd hst (by simp [injectStatement])

theorem stLoopGo_mem (f : String) (nls : List Nat) (L : Nat) :
    ∀ fuel s st, st ∈ (stLoopGo f nls L fuel s).1 →
      ∃ s1 r1, s1 <:+ s ∧ statementP f nls L s1 = some (st, r1) := by
  intro fuel
  induction fuel with
  | zero => intro s st h; simp [stLoopGo] at h
  | succ n ih =>
    intro s st h
    rw [stLoopGo] at h
    cases he : statementElementP f nls L s with
    | none => rw [he] at h; simp at h
    | some pr =>
      obtain ⟨st', r⟩ := pr
      rw [he] at h
      simp only at h
      rcases List.mem_cons.mp h with h1 | h2
      · subst h1
        unfold statementElementP at he
        cases heq : statementP f nls L
            (List.dropWhile (fun p => p.1 == Token.Newline) s) with
        | none => rw [heq] at he; simp at he
        | some q =>
          obtain ⟨st0, r0⟩ := q
          rw [heq] at he
          simp only [Option.some_inj, Prod.mk.injEq] at he
          obtain ⟨he1, _⟩ := he
          subst he1
          exact ⟨_, _, List.dropWhile_suffix _, heq⟩
      · have hr : r <:+ s := by
          unfold statementElementP at he
          cases heq : statementP f nls L
              (List.dropWhile (fun p => p.1 == Token.Newline) s) with
          | none => rw [heq] at he; simp at he
          | some q =>
            obtain ⟨st0, r0⟩ := q
            rw [heq] at he
            simp only [Option.some_inj, Prod.mk.injEq] at he
            obtain ⟨-, he2⟩ := he
            rw [← he2]
            exact ((List.dropWhile_suffix _).trans
              (statementP_consuming f nls L _ _ _ heq)).trans
              (List.dropWhile_suffix _)
        obtain ⟨s1, r1, hsuf, hst⟩ := ih r st h2
        exact ⟨s1, r1, hsuf.trans hr, hst⟩

/-- C1 (amended): whenever `parse_str` returns statements, every
`Directive` statement among them carries `meta["filename"]` equal to the
supplied filename, and its `meta["lineno"]` entry is the source's
newline-count lookup at the span start of the token suffix `s1` of this
source's lexed token stream from which that very directive parses — the
offset of the directive's first token.  That lookup returns the ordinal of
the last newline at or before the offset (1 when there is none) — i.e. one
LESS than the 1-based line number for any directive on line 2 or later,
not the 1-based line number itself (see the counterexample). -/
theorem C1_meta_injection (f src : String) (xs : List Statement)
    (d : Directive) (h : (parse_str f src).1 = some xs)
    (hmem : Statement.DirectiveS d ∈ xs) :
    lookupMM d.meta "filename" = some (.StringM f) ∧
    ∃ ts s1 r1, (lexer src.data).1 = some ts ∧ s1 <:+ ts ∧
      statementP f (newlinePositions src.data) src.length s1 =
        some (Statement.DirectiveS d, r1) ∧
      lookupMM d.meta "lineno" =
        some (.Number (lineLookup (newlinePositions src.data)
          (spanStartOf src.length s1))) := by
  rw [parse_str_fst] at h
  split at h
  case _ ts heq =>
    unfold parserRun at h
    cases hsp : stLoopGo f (newlinePositions src.data) src.length
        (ts.length + 1) ts with
    | mk sts rest =>
      rw [hsp] at h
      simp only at h
      split at h
      case _ hrest =>
        rw [Option.some_inj] at h
        subst h
        have hmem2 : Statement.DirectiveS d ∈
            (stLoopGo f (newlinePositions src.data) src.length
              (ts.length + 1) ts).1 := by
          rw [hsp]
          exact hmem
        obtain ⟨s1, r1, hsuf, hst⟩ := stLoopGo_mem f
          (newlinePositions src.data) src.length (ts.length + 1) ts
          (Statement.DirectiveS d) hmem2
        obtain ⟨h1, h2⟩ := statementP_directive _ _ _ _ _ _ hst
        exact ⟨h1, ts, s1, r1, heq, hsuf, hst, h2⟩
      case _ => exact absurd h (by simp)
  case _ => exact absurd h (by simp)

/-- Witness for C1: the single `close` directive parsed from
`"2025-01-01 close Assets:A\n"` carries the injected provenance metadata,
obtained from a parse that starts at a suffix of the lexed token stream. -/
theorem C1_meta_injection_witness :
    lookupMM [("filename", Metadata.StringM "f"),
      ("lineno", Metadata.Number 1)] "filename" =
        some (.StringM "f") ∧
    ∃ ts s1 r1,
      (lexer (String.data "2025-01-01 close Assets:A\n")).1 = some ts ∧
      s1 <:+ ts ∧
      statementP "f"
        (newlinePositions (String.data "2025-01-01 close Assets:A\n"))
        (String.length "2025-01-01 close Assets:A\n") s1 =
        some (Statement.DirectiveS (Directive.new ⟨2025, 1, 1⟩
          (.Close ⟨"Assets:A"⟩)
          [("filename", .StringM "f"), ("lineno", .Number 1)]), r1) ∧
      lookupMM [("filename", Metadata.StringM "f"),
        ("lineno", Metadata.Number 1)] "lineno" =
        some (.Number (lineLookup
          (newlinePositions (String.data "2025-01-01 close Assets:A\n"))
          (spanStartOf (String.length "2025-01-01 close Assets:A\n") s1))) :=
  C1_meta_injection "f" "2025-01-01 close Assets:A\n"
    [Statement.DirectiveS (Directive.new ⟨2025, 1, 1⟩ (.Close ⟨"Assets:A"⟩)
      [("filename", .StringM "f"), ("lineno", .Number 1)])]
    (Directive.new ⟨2025, 1, 1⟩ (.Close ⟨"Assets:A"⟩)
      [("filename", .StringM "f"), ("lineno", .Number 1)])
    (by decide) (by decide)

/-- C1 (counterexample): on `"\n2025-01-01 close Assets:A\n"` the close
directive's first token sits at offset 1, on (1-based) line 2, yet the
injected `meta["lineno"]` is `1`: the newline-count lookup at offset 1 is
`1`, one less than the 1-based line number the claim asserts. -/
theorem C1_counterexample :
    parse_str "f" "\n2025-01-01 close Assets:A\n" =
      (some [Statement.DirectiveS (Directive.new ⟨2025, 1, 1⟩
        (.Close ⟨"Assets:A"⟩)
        [("filename", .StringM "f"), ("lineno", .Number 1)])], []) ∧
    lineLookup (newlinePositions
      (String.data "\n2025-01-01 close Assets:A\n")) 1 = 1 ∧
    lineNumber1 (String.data "\n2025-01-01 close Assets:A\n") 1 = 2 := by
  refine ⟨by decide, by decide, by decide⟩

end Beancountr
